import Mathlib

/-
Verification of the voice-agent backend (real-time spoken-dialogue server).

Shallow embedding conventions:
- text is modelled as `List Char`;
- timestamps (`Date.now()`) are `Nat` milliseconds passed in explicitly;
- confidences (JS floats in [0,1]) are modelled as `Rat`;
- asynchronous code is modelled as step functions over explicit schedules:
  one step runs one atomic block (the code between two `await` suspension
  points), matching the single-threaded JS event loop;
- fallible collaborators are driven by explicit outcome oracles.
-/

namespace VoiceAgent

/-- Result delivered to a `next()` caller: `{ value, done: false }` or `{ done: true }`. -/
inductive NextRes (α : Type) where
  | item (a : α) : NextRes α
  | done : NextRes α
deriving DecidableEq

/-- State of `AsyncQueue` (src/utils/async-queue.js): buffered items (`this.queue`),
pending consumer waiters (`this.waiting`, identified by the id of the `next()` call
that registered them, in FIFO order), and the `closed` flag. -/
structure AsyncQueue (α : Type) where
  queue : List α
  waiting : List Nat
  closed : Bool
deriving DecidableEq

/-- The `push(item)` method (async-queue.js lines 17-31): a no-op when closed;
hands the item directly to the first waiter when one exists (the returned list
records that resolution); otherwise appends the item to the buffer. -/
def AsyncQueue.push (st : AsyncQueue α) (a : α) : AsyncQueue α × List (Nat × NextRes α) :=
  if st.closed then (st, [])
  else
    match st.waiting with
    | w :: ws => ({ st with waiting := ws }, [(w, NextRes.item a)])
    | [] => ({ st with queue := st.queue ++ [a] }, [])

/-- Outcome of a `next()` call: resolved immediately, or suspended as a waiter. -/
inductive NextOutcome (α : Type) where
  | immediate (r : NextRes α)
  | wait
deriving DecidableEq

/-- The `next()` method (async-queue.js lines 37-50): delivers the buffer head when
the buffer is non-empty (this check comes before the `closed` check); otherwise
resolves with end-of-stream when closed; otherwise registers the caller (id `k`)
as a waiter. -/
def AsyncQueue.next (st : AsyncQueue α) (k : Nat) : AsyncQueue α × NextOutcome α :=
  match st.queue with
  | a :: qs => ({ st with queue := qs }, NextOutcome.immediate (NextRes.item a))
  | [] =>
    if st.closed then (st, NextOutcome.immediate NextRes.done)
    else ({ st with waiting := st.waiting ++ [k] }, NextOutcome.wait)

/-- The `close()` method (async-queue.js lines 55-62): sets `closed` and resolves
every currently-waiting consumer with `{ done: true }`. -/
def AsyncQueue.close (st : AsyncQueue α) : AsyncQueue α × List (Nat × NextRes α) :=
  ({ st with waiting := [], closed := true }, st.waiting.map (fun w => (w, NextRes.done)))

/-- The `clear()` method (async-queue.js lines 67-74): empties the buffer and resolves
every currently-waiting consumer with `{ done: true }` - without touching `closed`. -/
def AsyncQueue.clear (st : AsyncQueue α) : AsyncQueue α × List (Nat × NextRes α) :=
  ({ st with queue := [], waiting := [] }, st.waiting.map (fun w => (w, NextRes.done)))

/-- One queue operation of a client trace. -/
inductive QOp (α : Type) where
  | push (a : α)
  | next
  | close
  | clear
deriving DecidableEq

/-- Run a trace of queue operations, numbering calls by position (counter `k`).
The returned list records, in chronological order, every resolved `next()` call
as `(id of the next call, result)` - immediate resolutions and later waiter
resolutions alike. -/
def runOpsFrom (st : AsyncQueue α) (k : Nat) : List (QOp α) → AsyncQueue α × List (Nat × NextRes α)
  | [] => (st, [])
  | QOp.push a :: ops =>
    let r := st.push a
    let rest := runOpsFrom r.1 (k+1) ops
    (rest.1, r.2 ++ rest.2)
  | QOp.next :: ops =>
    let r := st.next k
    let rest := runOpsFrom r.1 (k+1) ops
    match r.2 with
    | NextOutcome.immediate v => (rest.1, (k, v) :: rest.2)
    | NextOutcome.wait => (rest.1, rest.2)
  | QOp.close :: ops =>
    let r := st.close
    let rest := runOpsFrom r.1 (k+1) ops
    (rest.1, r.2 ++ rest.2)
  | QOp.clear :: ops =>
    let r := st.clear
    let rest := runOpsFrom r.1 (k+1) ops
    (rest.1, r.2 ++ rest.2)

/-- A freshly constructed `AsyncQueue`. -/
def emptyQueue (α : Type) : AsyncQueue α := ⟨[], [], false⟩

/-- Run a trace of queue operations from a fresh queue. -/
def runOps (ops : List (QOp α)) : AsyncQueue α × List (Nat × NextRes α) :=
  runOpsFrom (emptyQueue α) 0 ops

/-- Ids (trace positions) of the `next` calls of a trace, in call order. -/
def nextIds : Nat → List (QOp α) → List Nat
  | k, QOp.next :: ops => k :: nextIds (k+1) ops
  | k, _ :: ops => nextIds (k+1) ops
  | _, [] => []

/-- Values pushed by a trace, in push order. -/
def pushVals : List (QOp α) → List α
  | QOp.push a :: ops => a :: pushVals ops
  | _ :: ops => pushVals ops
  | [] => []

/-- A trace consisting solely of `push` and `next` operations. -/
def pushNextOnly (ops : List (QOp α)) : Prop :=
  ∀ op ∈ ops, op = QOp.next ∨ ∃ a, op = QOp.push a

/-- Sentence-ending punctuation: the character class of the regex `[.!?]+`. -/
def isEnder (c : Char) : Bool := c == '.' || c == '!' || c == '?'

/-- Whitespace as removed by `String.prototype.trim` (the characters that occur
in this code base's text). -/
def isWS (c : Char) : Bool := c == ' ' || c == '\t' || c == '\n' || c == '\r'

/-- JS `String.prototype.trim`: drop whitespace from both ends. -/
def trimList (l : List Char) : List Char :=
  ((l.dropWhile isWS).reverse.dropWhile isWS).reverse

/-- One left-to-right scan of the buffer for sentence boundaries: the
`while ((match = regex.exec(this.buffer)) !== null)` loop of `extractSentences`.
`acc` is the text between the last accepted boundary (`lastIndex`) and the scan
position; the scan consumes `rest`. Each maximal run of enders closes the
candidate `acc ++ run`, trimmed; the candidate is accepted iff its length
reaches the minimum sentence length (10), in which case the boundary advances
(`acc` resets); otherwise the boundary stays and the short candidate remains
merged with what follows. `fuel` makes the recursion structural; every step
consumes at least one character of `rest`, so any `fuel > rest.length` is
sufficient and the fuel-exhausted base case is unreachable from `scan`. -/
def scanAux : Nat → List Char → List Char → List (List Char) × List Char
  | 0, acc, rest => ([], acc ++ rest)
  | _ + 1, acc, [] => ([], acc)
  | fuel + 1, acc, c :: rs =>
    if isEnder c then
      if 10 ≤ (trimList (acc ++ (c :: rs).takeWhile isEnder)).length then
        (trimList (acc ++ (c :: rs).takeWhile isEnder) ::
           (scanAux fuel [] ((c :: rs).dropWhile isEnder)).1,
         (scanAux fuel [] ((c :: rs).dropWhile isEnder)).2)
      else scanAux fuel (acc ++ (c :: rs).takeWhile isEnder) ((c :: rs).dropWhile isEnder)
    else scanAux fuel (acc ++ [c]) rs

/-- The punctuation phase of `extractSentences` (sentence-detector.js, the
failsafe version): run the scan over the whole buffer; if at least one sentence
was accepted (`lastIndex > 0`) the leftover replaces the buffer trimmed,
otherwise the buffer is left unchanged. -/
def extractScan (buffer : List Char) : List (List Char) × List Char :=
  if (scanAux (buffer.length + 1) [] buffer).1.isEmpty then
    scanAux (buffer.length + 1) [] buffer
  else ((scanAux (buffer.length + 1) [] buffer).1,
        trimList (scanAux (buffer.length + 1) [] buffer).2)

/-- SentenceDetector state: the accumulating text buffer and the `lastFlush`
timestamp in milliseconds. -/
structure SentenceDetector where
  buffer : List Char
  lastFlush : Nat
deriving DecidableEq

/-- A fresh detector constructed at time `now` (`this.lastFlush = Date.now()`). -/
def SentenceDetector.mk0 (now : Nat) : SentenceDetector := ⟨[], now⟩

/-- Failsafe 2 of `extractSentences`: if the buffer left by the scan exceeds the
maximum length (100) and its trimmed length still meets the minimum (10), flush
the whole trimmed buffer as one sentence and reset `lastFlush`. -/
def lengthFailsafe (out : List (List Char)) (buf : List Char) (lf now : Nat) :
    List (List Char) × List Char × Nat :=
  if 100 < buf.length then
    if 10 ≤ (trimList buf).length then (out ++ [trimList buf], [], now)
    else (out, buf, lf)
  else (out, buf, lf)

/-- Failsafe 3 of `extractSentences`: if more than the maximum wait (2000 ms) has
passed since the last flush and the (untrimmed) buffer length meets the minimum
(10), flush the whole trimmed buffer as one sentence. -/
def timeFailsafe (out : List (List Char)) (buf : List Char) (lf now : Nat) :
    List (List Char) × SentenceDetector :=
  if 2000 < now - lf ∧ 10 ≤ buf.length then (out ++ [trimList buf], ⟨[], now⟩)
  else (out, ⟨buf, lf⟩)

/-- `extractSentences` with failsafes: the punctuation scan (any acceptance
updates `lastFlush` to now), then the length failsafe, then the time failsafe.
All `Date.now()` reads within this synchronous call are modelled as the single
timestamp `now`. -/
def SentenceDetector.extractSentences (st : SentenceDetector) (now : Nat) :
    List (List Char) × SentenceDetector :=
  match extractScan st.buffer with
  | (out, buf) =>
    match lengthFailsafe out buf (if out.isEmpty then st.lastFlush else now) now with
    | (out2, buf2, lf2) => timeFailsafe out2 buf2 lf2 now

/-- `addChunk(chunk)`: append the chunk to the buffer, then extract sentences. -/
def SentenceDetector.addChunk (st : SentenceDetector) (chunk : List Char) (now : Nat) :
    List (List Char) × SentenceDetector :=
  SentenceDetector.extractSentences ⟨st.buffer ++ chunk, st.lastFlush⟩ now

/-- `getRemainder()`: return the trimmed buffer and clear it (no minimum-length
check). -/
def SentenceDetector.getRemainder (st : SentenceDetector) : List Char × SentenceDetector :=
  (trimList st.buffer, ⟨[], st.lastFlush⟩)

/-- Feed a list of (chunk, arrival-time) pairs through `addChunk`, collecting
every sentence produced, in order. -/
def runChunks (st : SentenceDetector) :
    List (List Char × Nat) → List (List Char) × SentenceDetector
  | [] => ([], st)
  | (c, now) :: rest =>
    let r := st.addChunk c now
    let r2 := runChunks r.2 rest
    (r.1 ++ r2.1, r2.2)

/-- Erase every whitespace character of a text. -/
def stripWS (l : List Char) : List Char := l.filter (fun c => !isWS c)

/-- The C6 claim's relation, following the spec text: `S` equals the
concatenation of the given pieces in order, differing only by whitespace at the
piece boundaries (arbitrary whitespace runs before, between and after the
pieces; each piece itself appears verbatim). -/
inductive BoundaryWS : List (List Char) → List Char → Prop
  | nil (w : List Char) (hw : ∀ c ∈ w, isWS c = true) : BoundaryWS [] w
  | cons (w p : List Char) (ps : List (List Char)) (S : List Char)
      (hw : ∀ c ∈ w, isWS c = true) (h : BoundaryWS ps S) :
      BoundaryWS (p :: ps) (w ++ p ++ S)

/-- Boolean prefix test on character lists. -/
def isPrefixList : List Char → List Char → Bool
  | [], _ => true
  | _ :: _, [] => false
  | a :: as, b :: bs => a == b && isPrefixList as bs

/-- Boolean test for `needle` occurring as a contiguous segment of `hay`. -/
def containsSeg : List Char → List Char → Bool
  | [], needle => needle.isEmpty
  | c :: t, needle => isPrefixList needle (c :: t) || containsSeg t needle

def chunkA : List Char := "This is a test. Hello ".toList

def chunkB : List Char := "world today okay.".toList

def gluedSentence : List Char := "Helloworld today okay.".toList

def c7chunk : List Char := "Hi! Yes ok fine.".toList

/-- Result of one HTTP attempt made by the webhook collaborator, as seen by
`axios.post` with `validateStatus: status => 200 <= status < 500`: either the
server responded with some status code, or the transport failed (timeout
`ECONNABORTED`, connection reset, ...) in which case the rejection carries no
`response` field. -/
inductive HttpResult where
  | status (n : Nat)
  | netErr (timeout : Bool)
deriving DecidableEq

/-- Outcome of `WebhookService.sendBooking`. -/
inductive SendOutcome where
  | success (n : Nat)
  | failure
deriving DecidableEq

/-- `sendBooking(bookingData, retries)` of the retrying WebhookService
(src/unnamed/part_001; server.js calls it with the default `retries = 2`).
`env i` is the result of the i-th HTTP attempt. Returned: the outcome, the
number of attempts performed, and the total backoff waited in ms.
Per attempt: a status in 200..499 resolves (validateStatus); a resolved status
at 400 or above makes the code throw a plain `Error` - crucially one with no
`response` field; any other axios rejection with a response attached (e.g. 5xx)
is not retried because `!error.response` is false and its code is not
`ECONNABORTED`; rejections without a response (transport failures - and the
self-thrown 4xx error) are retried after a 1000 ms backoff while retries
remain. -/
def sendBookingAux (env : Nat → HttpResult) : Nat → Nat → SendOutcome × Nat × Nat
  | i, 0 =>
    match env i with
    | HttpResult.status n =>
      if 200 ≤ n ∧ n < 500 then
        if 400 ≤ n then (SendOutcome.failure, 1, 0)
        else (SendOutcome.success n, 1, 0)
      else (SendOutcome.failure, 1, 0)
    | HttpResult.netErr _ => (SendOutcome.failure, 1, 0)
  | i, r + 1 =>
    match env i with
    | HttpResult.status n =>
      if 200 ≤ n ∧ n < 500 then
        if 400 ≤ n then
          ((sendBookingAux env (i+1) r).1,
           (sendBookingAux env (i+1) r).2.1 + 1,
           (sendBookingAux env (i+1) r).2.2 + 1000)
        else (SendOutcome.success n, 1, 0)
      else (SendOutcome.failure, 1, 0)
    | HttpResult.netErr _ =>
      ((sendBookingAux env (i+1) r).1,
       (sendBookingAux env (i+1) r).2.1 + 1,
       (sendBookingAux env (i+1) r).2.2 + 1000)

/-- `sendBooking(bookingData)` with the default retry budget of 2. -/
def sendBooking (env : Nat → HttpResult) : SendOutcome × Nat × Nat :=
  sendBookingAux env 0 2

/-- A transcript signal delivered by the recognition collaborator
(services/deepgram.js lines 47-54). -/
structure Signal where
  text : List Char
  isFinal : Bool
  speechFinal : Bool
  confidence : Rat

/-- The per-call trigger/barge-in state captured by the `call-start` closure
(server.js lines 122-126): the rolling transcript buffer, the pipeline lock,
the `aiSpeaking` flag, whether a pipeline object is currently referenced, and
the last processed text. -/
structure TrigState where
  transcriptBuffer : List Char
  isProcessing : Bool
  aiSpeaking : Bool
  hasPipeline : Bool
  lastProcessedText : List Char
deriving DecidableEq

/-- Observable actions of the transcript handler. -/
inductive TrigEv where
  | bargeInEv
  | abortPipe
  | transcriptOut (t : List Char)
  | startPipe (t : List Char)
deriving DecidableEq

/-- Whether the text ends in terminal punctuation - the regex `[.!?]$`. -/
def endsWithEnder (t : List Char) : Bool :=
  match t.getLast? with
  | some c => isEnder c
  | none => false

/-- The barge-in condition (server.js line 139): AI speaking, trimmed incoming
text longer than 5, and the text is not a prefix-continuation of
`lastProcessedText` (JS `text.startsWith(lastProcessedText)`). -/
def bargeInCond (st : TrigState) (sig : Signal) : Bool :=
  st.aiSpeaking && decide (5 < (trimList sig.text).length) &&
    !(isPrefixList st.lastProcessedText sig.text)

/-- The aggressive trigger condition (server.js lines 170-177). -/
def shouldTrigger (sig : Signal) : Bool :=
  sig.isFinal ||
    (decide ((85:Rat)/100 < sig.confidence) && sig.speechFinal) ||
    (decide (15 < sig.text.length) && endsWithEnder sig.text &&
      decide ((80:Rat)/100 < sig.confidence))

/-- The `onTranscript` callback (server.js lines 128-222): barge-in check first
(abort the active pipeline, emit `barge-in`, reset the state, seed the buffer
with the new text, clear `lastProcessedText`, return); otherwise update the
buffer when not processing; skip when processing or when the text equals
`lastProcessedText`; otherwise, on the trigger condition with a non-empty
buffer, lock, record `lastProcessedText`, emit the transcript, clear the buffer
and start the pipeline on the captured text. -/
def onTranscript (st : TrigState) (sig : Signal) : TrigState × List TrigEv :=
  if bargeInCond st sig then
    ({ transcriptBuffer := sig.text, isProcessing := false, aiSpeaking := false,
       hasPipeline := false, lastProcessedText := [] },
     (if st.hasPipeline then [TrigEv.abortPipe] else []) ++ [TrigEv.bargeInEv])
  else
    if st.isProcessing || decide (sig.text = st.lastProcessedText) then
      ({ st with transcriptBuffer :=
          if st.isProcessing then st.transcriptBuffer else sig.text }, [])
    else
      if shouldTrigger sig && decide (0 < (trimList sig.text).length) then
        ({ transcriptBuffer := [], isProcessing := true, aiSpeaking := true,
           hasPipeline := true, lastProcessedText := sig.text },
         [TrigEv.transcriptOut sig.text, TrigEv.startPipe sig.text])
      else ({ st with transcriptBuffer := sig.text }, [])

/-- The `.finally` continuation of `handleUserMessage` (server.js lines 210-220),
run when the pipeline settles: release the lock, clear `aiSpeaking`, drop the
pipeline reference, and clear `lastProcessedText` only when the pipeline was not
aborted. -/
def onSettled (st : TrigState) (wasAborted : Bool) : TrigState :=
  { st with
      isProcessing := false,
      aiSpeaking := false,
      hasPipeline := false,
      lastProcessedText := (if wasAborted then st.lastProcessedText else []) }

def c5state : TrigState :=
  { transcriptBuffer := [], isProcessing := true, aiSpeaking := true,
    hasPipeline := true, lastProcessedText := "hello there".toList }

def c5signal : Signal :=
  { text := "stop please now".toList, isFinal := false, speechFinal := false,
    confidence := 0 }

/-- An item of the language-model token stream as consumed by
`handleUserMessage` (server.js lines 361-404): either visible text, or the
`__tool_call` marker chunk. The JSON-encoded marker yielded by
`LLMService.streamOpenAIResponse` is modelled as a tagged variant whose payload
stands for the resolved `arguments` (the `datetime` field used by the
confirmation message). -/
inductive LLMChunk where
  | text (s : List Char)
  | tool (td : List Char)
deriving DecidableEq

/-- Environment of one pipeline run: the token stream (text chunks paired with
their arrival times, which feed the sentence detector's failsafes), the outcome
of `webhook.sendBooking` (true: resolves; false: throws after its internal
retries), a per-call success oracle for the worker's synthesis calls (false:
`cartesia.textToSpeech` throws for that sentence), and the outcomes of the two
tool-path synthesis calls: the confirmation synthesis (server.js line 468) and
the apology synthesis inside the catch (line 481). -/
structure PipeInput where
  chunks : List (LLMChunk × Nat)
  webhookOk : Bool
  ttsOk : Nat → Bool
  confirmTTSOk : Bool
  errTTSOk : Bool

/-- Outbound socket events relevant to the pipeline claims (`errorEv` is the
`error` event emitted by the outer catch of `handleUserMessage`). -/
inductive Ev where
  | aiResponse (t : List Char)
  | audioResponse
  | statusEv
  | errorEv
deriving DecidableEq

/-- Roles of conversation-history entries pushed by `handleUserMessage`:
plain user/assistant turns, the assistant turn carrying `tool_calls`
(server.js lines 440-451), and the `role: 'tool'` result turn (lines 453-457). -/
inductive Role where
  | user
  | assistant
  | assistantToolCalls
  | toolResult
deriving DecidableEq

/-- A ConversationTurn as committed to `session.conversationHistory`. -/
structure Turn where
  role : Role
  content : List Char
deriving DecidableEq

/-- Program counter of the `handleUserMessage` task. Each constructor is a
suspension point; one `mainStep` of the scheduler runs the atomic block from
that suspension point to the next one. `toolConfirmTTS` is the confirmation
synthesis await (server.js line 468, after a successful webhook);
`toolErrTTS` is the apology synthesis await inside the catch (line 481,
reached on webhook failure or on a failed confirmation synthesis). -/
inductive MainPC where
  | streaming (rest : List (LLMChunk × Nat))
  | waitWorker
  | toolWebhook
  | toolConfirmTTS
  | toolErrTTS
  | doneM
deriving DecidableEq

/-- Program counter of the `startTTSWorker` task. -/
inductive WorkerPC where
  | idle
  | ttsAwait (s : List Char)
  | doneW
deriving DecidableEq

/-- Configuration of one turn pipeline: both task counters, the TTS handoff
queue (modelled as its buffered contents plus the closed flag - the worker
dequeues when an item is available, which is observably equivalent to the
direct waiter handoff verified separately on `AsyncQueue`), the sentence
detector, the accumulators of `handleUserMessage`, the cooperative abort flag,
and the observable outcomes: emitted events and committed turns, each tagged
with the value of the abort flag at the moment of emission/commit. -/
structure PipeConfig where
  main : MainPC
  worker : WorkerPC
  queue : List (List Char)
  qclosed : Bool
  det : SentenceDetector
  fullResponse : List Char
  toolCall : Option (List Char)
  aborted : Bool
  events : List (Ev × Bool)
  history : List (Turn × Bool)
  sentCount : Nat
deriving DecidableEq

/-- The confirmation utterance (server.js line 462; apostrophe written out). -/
def confirmMsg (td : List Char) : List Char :=
  "All set! I have registered your appointment for ".toList ++ td ++ ".".toList

/-- The apology utterance (server.js line 479; apostrophe written out). -/
def apologyMsg : List Char :=
  "Sorry, I could not complete the booking. Please try again.".toList

/-- The tool-result content (server.js line 456; JSON braces elided). -/
def toolResultContent : List Char :=
  "success: true - Booking registered successfully".toList

/-- Initial configuration of `handleUserMessage(socket, session, userText,
pipeline)`: the user turn is pushed and the thinking status emitted
synchronously before the first await (lines 342-347); the TTS worker is
launched at its first `next()` (line 356); the abort flag starts false. -/
def initConfig (userText : List Char) (chunks : List (LLMChunk × Nat)) (t0 : Nat) : PipeConfig :=
  { main := MainPC.streaming chunks,
    worker := WorkerPC.idle,
    queue := [],
    qclosed := false,
    det := SentenceDetector.mk0 t0,
    fullResponse := [],
    toolCall := none,
    aborted := false,
    events := [(Ev.statusEv, false)],
    history := [(⟨Role.user, userText⟩, false)],
    sentCount := 0 }

/-- One atomic block of the `handleUserMessage` task (between two awaits).
At `streaming`: the await of the next LLM chunk has completed; if the flag was
set during the await the loop breaks, `getRemainder` is called but its guarded
processing is skipped, and the queue is closed (lines 363, 406-413, 423);
otherwise a tool-marker chunk is recorded and skipped (lines 369-380) or a text
chunk is accumulated, run through the detector, and every detected sentence is
emitted as a partial ai-response and pushed onto the queue (lines 382-401; the
flag cannot change within the atomic block, so the inner per-sentence abort
check cannot fire here). At `streaming []`: stream end - guarded remainder
processing, then close. At `waitWorker`: runs only once the worker has
finished (`await ttsWorkerPromise`, line 424); executes the tool branch guard
(line 428) or the guarded final commit (lines 491-500). At `toolWebhook`: the
webhook await (line 437) has completed - the flag is NOT re-checked - and the
success path commits the two tool turns (lines 440-457) and emits the
confirmation text (line 465) before suspending on the confirmation synthesis,
while the failure path jumps to the catch (line 477), emits the apology text
(line 480) and suspends on the apology synthesis. At `toolConfirmTTS`: the
confirmation synthesis await (line 468) has completed - again no re-check - on
success the confirmation audio is emitted (line 469), the confirmation turn
committed (line 472) and the status emitted (line 486); on a synthesis failure
control jumps to the catch (line 477), the apology text is emitted (line 480)
and the apology synthesis starts (line 481). At `toolErrTTS`: the apology
synthesis await has completed - on success the apology audio (line 482) and
the status (line 486) are emitted; on failure the exception escapes the catch
into the outer catch of `handleUserMessage` (lines 503-507), which emits the
`error` event and a status event. -/
def stepMain (inp : PipeInput) (cfg : PipeConfig) : PipeConfig :=
  match cfg.main with
  | MainPC.streaming ((chunk, now) :: rest) =>
    if cfg.aborted then
      { cfg with
          main := MainPC.waitWorker,
          det := (cfg.det.getRemainder).2,
          qclosed := true }
    else
      match chunk with
      | LLMChunk.tool td =>
        { cfg with
            main := MainPC.streaming rest,
            toolCall := some td }
      | LLMChunk.text s =>
        { cfg with
            main := MainPC.streaming rest,
            fullResponse := cfg.fullResponse ++ s,
            det := (cfg.det.addChunk s now).2,
            events := cfg.events ++
              ((cfg.det.addChunk s now).1.map (fun t => (Ev.aiResponse t, cfg.aborted))),
            queue := cfg.queue ++ (cfg.det.addChunk s now).1 }
  | MainPC.streaming [] =>
    if cfg.aborted = false ∧ (cfg.det.getRemainder).1 ≠ [] then
      { cfg with
          main := MainPC.waitWorker,
          det := (cfg.det.getRemainder).2,
          fullResponse := cfg.fullResponse ++ (cfg.det.getRemainder).1,
          events := cfg.events ++ [(Ev.aiResponse (cfg.det.getRemainder).1, cfg.aborted)],
          queue := cfg.queue ++ [(cfg.det.getRemainder).1],
          qclosed := true }
    else
      { cfg with
          main := MainPC.waitWorker,
          det := (cfg.det.getRemainder).2,
          qclosed := true }
  | MainPC.waitWorker =>
    if cfg.worker = WorkerPC.doneW then
      match cfg.toolCall with
      | some _ =>
        if cfg.aborted then { cfg with main := MainPC.doneM }
        else { cfg with main := MainPC.toolWebhook }
      | none =>
        if cfg.aborted then { cfg with main := MainPC.doneM }
        else
          { cfg with
              main := MainPC.doneM,
              history := cfg.history ++ [(⟨Role.assistant, cfg.fullResponse⟩, cfg.aborted)],
              events := cfg.events ++
                [(Ev.aiResponse cfg.fullResponse, cfg.aborted), (Ev.statusEv, cfg.aborted)] }
    else cfg
  | MainPC.toolWebhook =>
    match cfg.toolCall with
    | some td =>
      if inp.webhookOk then
        { cfg with
            main := MainPC.toolConfirmTTS,
            history := cfg.history ++
              [(⟨Role.assistantToolCalls, cfg.fullResponse⟩, cfg.aborted),
               (⟨Role.toolResult, toolResultContent⟩, cfg.aborted)],
            events := cfg.events ++ [(Ev.aiResponse (confirmMsg td), cfg.aborted)] }
      else
        { cfg with
            main := MainPC.toolErrTTS,
            events := cfg.events ++ [(Ev.aiResponse apologyMsg, cfg.aborted)] }
    | none => { cfg with main := MainPC.doneM }
  | MainPC.toolConfirmTTS =>
    match cfg.toolCall with
    | some td =>
      if inp.confirmTTSOk then
        { cfg with
            main := MainPC.doneM,
            events := cfg.events ++
              [(Ev.audioResponse, cfg.aborted), (Ev.statusEv, cfg.aborted)],
            history := cfg.history ++ [(⟨Role.assistant, confirmMsg td⟩, cfg.aborted)] }
      else
        { cfg with
            main := MainPC.toolErrTTS,
            events := cfg.events ++ [(Ev.aiResponse apologyMsg, cfg.aborted)] }
    | none => { cfg with main := MainPC.doneM }
  | MainPC.toolErrTTS =>
    if inp.errTTSOk then
      { cfg with
          main := MainPC.doneM,
          events := cfg.events ++
            [(Ev.audioResponse, cfg.aborted), (Ev.statusEv, cfg.aborted)] }
    else
      { cfg with
          main := MainPC.doneM,
          events := cfg.events ++
            [(Ev.errorEv, cfg.aborted), (Ev.statusEv, cfg.aborted)] }
  | MainPC.doneM => cfg

/-- One atomic block of the `startTTSWorker` task. At `idle`: the `next()`
await resolves when an item is buffered or the queue is closed (otherwise the
worker stays suspended and the step is a no-op); on an item the continuation
(lines 516-531) re-checks the flag, breaks on an empty sentence, emits the
speaking status on the first sentence and starts the synthesis await. At
`ttsAwait`: the synthesis await has completed - on failure the sentence is
skipped and the loop continues (lines 546-549); on success the flag is
re-checked (line 538) and only then is the audio emitted (line 544; the check
and the emit lie in the same atomic block). -/
def stepWorker (inp : PipeInput) (cfg : PipeConfig) : PipeConfig :=
  match cfg.worker with
  | WorkerPC.idle =>
    match cfg.queue with
    | s :: qs =>
      if cfg.aborted then { cfg with worker := WorkerPC.doneW, queue := qs }
      else if s = [] then { cfg with worker := WorkerPC.doneW, queue := qs }
      else
        { cfg with
            queue := qs,
            worker := WorkerPC.ttsAwait s,
            events := (if cfg.sentCount = 0 then cfg.events ++ [(Ev.statusEv, cfg.aborted)]
                       else cfg.events),
            sentCount := cfg.sentCount + 1 }
    | [] =>
      if cfg.qclosed then { cfg with worker := WorkerPC.doneW } else cfg
  | WorkerPC.ttsAwait _ =>
    if inp.ttsOk cfg.sentCount = false then { cfg with worker := WorkerPC.idle }
    else if cfg.aborted then { cfg with worker := WorkerPC.doneW }
    else
      { cfg with
          worker := WorkerPC.idle,
          events := cfg.events ++ [(Ev.audioResponse, cfg.aborted)] }
  | WorkerPC.doneW => cfg

/-- Scheduler choices: run the main task's next atomic block, run the worker's
next atomic block, or deliver a barge-in (the `onTranscript` handler running
`currentPipeline.abort()` in its own event-loop turn, setting the flag). -/
inductive Sched where
  | mainStep
  | workerStep
  | abortStep
deriving DecidableEq

/-- One scheduler step. -/
def step (inp : PipeInput) (cfg : PipeConfig) : Sched → PipeConfig
  | Sched.mainStep => stepMain inp cfg
  | Sched.workerStep => stepWorker inp cfg
  | Sched.abortStep => { cfg with aborted := true }

/-- Run a schedule. -/
def run (inp : PipeInput) (cfg : PipeConfig) : List Sched → PipeConfig
  | [] => cfg
  | s :: rest => run inp (step inp cfg s) rest

/-- Run a whole pipeline from `handleUserMessage` entry under a schedule. -/
def pipelineRun (inp : PipeInput) (userText : List Char) (t0 : Nat)
    (scheds : List Sched) : PipeConfig :=
  run inp (initConfig userText inp.chunks t0) scheds

/-- Number of synthesis calls currently in flight: the worker blocked on
`cartesia.textToSpeech` plus the main task blocked on the confirmation/apology
synthesis. -/
def ttsInFlight (cfg : PipeConfig) : Nat :=
  (match cfg.worker with
   | WorkerPC.ttsAwait _ => 1
   | _ => 0) +
  (match cfg.main with
   | MainPC.toolConfirmTTS => 1
   | MainPC.toolErrTTS => 1
   | _ => 0)

/-- Invariant backing C9: whenever the main task is past `await ttsWorkerPromise`
(in the tool phase), the worker has terminated. -/
def workerDoneInv (cfg : PipeConfig) : Prop :=
  (cfg.main = MainPC.toolWebhook ∨ cfg.main = MainPC.toolConfirmTTS ∨
      cfg.main = MainPC.toolErrTTS) →
    cfg.worker = WorkerPC.doneW

def c1input : PipeInput :=
  { chunks := [(LLMChunk.tool ("tomorrow 3pm".toList), 0)],
    webhookOk := true,
    ttsOk := fun _ => true,
    confirmTTSOk := true,
    errTTSOk := true }

def c1scheds : List Sched :=
  [Sched.mainStep, Sched.mainStep, Sched.workerStep, Sched.mainStep,
   Sched.abortStep, Sched.mainStep, Sched.mainStep]

def c1run : PipeConfig := pipelineRun c1input ("book it".toList) 0 c1scheds

/-- Whether a stream item is the tool-call marker. -/
def isToolChunk : LLMChunk → Bool
  | LLMChunk.tool _ => true
  | LLMChunk.text _ => false

/-- Invariant backing the amended C1, for pipelines whose stream carries no
tool-call marker: every event and every committed turn is tagged with an unset
abort flag, no tool call is pending, the remaining stream stays tool-free, and
the tool phase is unreachable. -/
def abortCleanInv (cfg : PipeConfig) : Prop :=
  (∀ e ∈ cfg.events, e.2 = false) ∧
  (∀ t ∈ cfg.history, t.2 = false) ∧
  cfg.toolCall = none ∧
  (∀ r, cfg.main = MainPC.streaming r → ∀ p ∈ r, isToolChunk p.1 = false) ∧
  cfg.main ≠ MainPC.toolWebhook ∧
  cfg.main ≠ MainPC.toolConfirmTTS ∧
  cfg.main ≠ MainPC.toolErrTTS

def c1winput : PipeInput :=
  { chunks := [(LLMChunk.text ("A good long sentence.".toList), 0)],
    webhookOk := true,
    ttsOk := fun _ => true,
    confirmTTSOk := true,
    errTTSOk := true }

def c1wscheds : List Sched :=
  [Sched.mainStep, Sched.mainStep, Sched.workerStep, Sched.workerStep, Sched.mainStep]

def c8input : PipeInput :=
  { chunks := [(LLMChunk.tool ("tomorrow 3pm".toList), 0)],
    webhookOk := false,
    ttsOk := fun _ => true,
    confirmTTSOk := true,
    errTTSOk := true }

def c8scheds : List Sched :=
  [Sched.mainStep, Sched.mainStep, Sched.workerStep, Sched.mainStep,
   Sched.mainStep, Sched.mainStep]

def c8run : PipeConfig := pipelineRun c8input ("book it".toList) 0 c8scheds

/-- Invariant backing the amended C8: on webhook failure no tool-result turn is
ever committed; at the confirmation-synthesis await the webhook succeeded and
the two tool turns are already committed; at the apology-synthesis await the
apology text is already emitted (webhook failure) or the confirmation
synthesis failed with the tool turns already committed (webhook success); a
completed, never-aborted run with a resolved tool call carries the
corresponding bookkeeping, the synthesis-dependent parts conditional on the
synthesis outcomes. -/
def c8Inv (inp : PipeInput) (cfg : PipeConfig) : Prop :=
  (inp.webhookOk = false → ∀ t ∈ cfg.history, t.1.role ≠ Role.toolResult) ∧
  (cfg.main = MainPC.toolConfirmTTS →
     (∃ td, cfg.toolCall = some td) ∧ inp.webhookOk = true ∧
     Turn.mk Role.assistantToolCalls cfg.fullResponse ∈ cfg.history.map Prod.fst ∧
     Turn.mk Role.toolResult toolResultContent ∈ cfg.history.map Prod.fst) ∧
  (cfg.main = MainPC.toolErrTTS →
     (inp.webhookOk = false →
        Ev.aiResponse apologyMsg ∈ cfg.events.map Prod.fst) ∧
     (inp.webhookOk = true →
        inp.confirmTTSOk = false ∧
        Turn.mk Role.assistantToolCalls cfg.fullResponse ∈ cfg.history.map Prod.fst ∧
        Turn.mk Role.toolResult toolResultContent ∈ cfg.history.map Prod.fst)) ∧
  (cfg.main = MainPC.doneM → cfg.aborted = false →
     ∀ td, cfg.toolCall = some td →
     (inp.webhookOk = false →
        Ev.aiResponse apologyMsg ∈ cfg.events.map Prod.fst ∧
        (inp.errTTSOk = true → Ev.audioResponse ∈ cfg.events.map Prod.fst)) ∧
     (inp.webhookOk = true →
        Turn.mk Role.assistantToolCalls cfg.fullResponse ∈ cfg.history.map Prod.fst ∧
        Turn.mk Role.toolResult toolResultContent ∈ cfg.history.map Prod.fst ∧
        (inp.confirmTTSOk = true →
           Turn.mk Role.assistant (confirmMsg td) ∈ cfg.history.map Prod.fst ∧
           Ev.audioResponse ∈ cfg.events.map Prod.fst)))

def c8winput : PipeInput :=
  { chunks := [(LLMChunk.tool ("tomorrow 3pm".toList), 0)],
    webhookOk := true,
    ttsOk := fun _ => true,
    confirmTTSOk := true,
    errTTSOk := true }

theorem nextIds_lower (α : Type) (ops : List (QOp α)) :
    ∀ k, ∀ i ∈ nextIds k ops, k ≤ i := by
  induction ops with
  | nil => intro k i hi; simp [nextIds] at hi
  | cons op ops ih =>
    intro k i hi
    cases op with
    | push a =>
      simp only [nextIds] at hi
      exact Nat.le_of_succ_le (ih (k+1) i hi)
    | next =>
      simp only [nextIds, List.mem_cons] at hi
      rcases hi with rfl | hi
      · exact Nat.le_refl _
      · exact Nat.le_of_succ_le (ih (k+1) i hi)
    | close =>
      simp only [nextIds] at hi
      exact Nat.le_of_succ_le (ih (k+1) i hi)
    | clear =>
      simp only [nextIds] at hi
      exact Nat.le_of_succ_le (ih (k+1) i hi)

theorem nextIds_pairwise (α : Type) (ops : List (QOp α)) :
    ∀ k, (nextIds k ops).Pairwise (· < ·) := by
  induction ops with
  | nil => intro k; simp [nextIds]
  | cons op ops ih =>
    intro k
    cases op with
    | push a => simpa [nextIds] using ih (k+1)
    | next =>
      simp only [nextIds, List.pairwise_cons]
      exact ⟨fun i hi => Nat.lt_of_lt_of_le (Nat.lt_succ_self k) (nextIds_lower α ops (k+1) i hi),
             ih (k+1)⟩
    | close => simpa [nextIds] using ih (k+1)
    | clear => simpa [nextIds] using ih (k+1)

/-- Core FIFO lemma for push/next-only traces: the deliveries are exactly the
pending waiters followed by the later `next` calls, paired in order with the
buffered items followed by the later pushed values. -/
theorem runOpsFrom_fifo (α : Type) (ops : List (QOp α)) :
    ∀ (st : AsyncQueue α) (k : Nat),
    st.closed = false → (st.queue = [] ∨ st.waiting = []) →
    pushNextOnly ops →
    (runOpsFrom st k ops).2 =
      List.zip (st.waiting ++ nextIds k ops)
        ((st.queue ++ pushVals ops).map NextRes.item) := by
  induction ops with
  | nil =>
    intro st k hcl hinv _
    rcases hinv with hq | hw
    · simp [runOpsFrom, nextIds, pushVals, hq]
    · simp [runOpsFrom, nextIds, pushVals, hw]
  | cons op ops ih =>
    intro st k hcl hinv hpn
    have hpn' : pushNextOnly ops := fun o ho => hpn o (List.mem_cons_of_mem _ ho)
    cases op with
    | push a =>
      rcases hinv with hq | hw
      · cases hwc : st.waiting with
        | nil =>
          have h1 : st.push a = ({ st with queue := st.queue ++ [a] }, []) := by
            simp [AsyncQueue.push, hcl, hwc]
          rw [runOpsFrom, h1]
          simp only [List.nil_append]
          rw [ih _ (k+1) (by simp [hcl]) (by right; simp [hwc]) hpn']
          simp [hq, hwc, nextIds, pushVals]
        | cons w ws =>
          have h1 : st.push a = ({ st with waiting := ws }, [(w, NextRes.item a)]) := by
            simp [AsyncQueue.push, hcl, hwc]
          rw [runOpsFrom, h1]
          rw [ih _ (k+1) (by simp [hcl]) (by left; simp [hq]) hpn']
          simp [hq, hwc, nextIds, pushVals]
      · have h1 : st.push a = ({ st with queue := st.queue ++ [a] }, []) := by
          simp [AsyncQueue.push, hcl, hw]
        rw [runOpsFrom, h1]
        simp only [List.nil_append]
        rw [ih _ (k+1) (by simp [hcl]) (by right; simp [hw]) hpn']
        simp [hw, nextIds, pushVals, List.append_assoc]
    | next =>
      cases hqc : st.queue with
      | nil =>
        have h1 : st.next k = ({ st with waiting := st.waiting ++ [k] }, NextOutcome.wait) := by
          simp [AsyncQueue.next, hqc, hcl]
        rw [runOpsFrom, h1]
        simp only []
        rw [ih _ (k+1) (by simp [hcl]) (by left; simp [hqc]) hpn']
        simp [hqc, nextIds, pushVals, List.append_assoc]
      | cons a qs =>
        have hw : st.waiting = [] := by
          rcases hinv with hq | hw
          · rw [hqc] at hq; cases hq
          · exact hw
        have h1 : st.next k =
            ({ st with queue := qs }, NextOutcome.immediate (NextRes.item a)) := by
          simp [AsyncQueue.next, hqc]
        rw [runOpsFrom, h1]
        simp only []
        rw [ih _ (k+1) (by simp [hcl]) (by right; simp [hw]) hpn']
        simp [hqc, hw, nextIds, pushVals]
    | close =>
      exfalso
      rcases hpn (QOp.close) (List.mem_cons_self _ _) with h | ⟨a, h⟩ <;> cases h
    | clear =>
      exfalso
      rcases hpn (QOp.clear) (List.mem_cons_self _ _) with h | ⟨a, h⟩ <;> cases h

/-- C3. Handoff Queue FIFO exactly-once delivery: for any interleaving of `push`
and `next` calls on a single `AsyncQueue`, the deliveries are exactly the `next`
calls (in call order, each id occurring at most once by strict monotonicity)
paired with the pushed values in push order: every pushed item that is consumed
goes to exactly one `next()` call, in push order. -/
theorem asyncQueue_fifo_exactly_once (α : Type) (ops : List (QOp α))
    (h : pushNextOnly ops) :
    (runOps ops).2 = List.zip (nextIds 0 ops) ((pushVals ops).map NextRes.item) ∧
    (nextIds 0 ops).Pairwise (· < ·) := by
  constructor
  · have := runOpsFrom_fifo α ops (emptyQueue α) 0 rfl (by left; rfl) h
    simpa [runOps, emptyQueue] using this
  · exact nextIds_pairwise α ops 0

/-- Witness for C3 at the concrete trace push 1, next, next, push 2:
deliveries are (call 1, item 1) and (call 2, item 2). -/
theorem asyncQueue_fifo_exactly_once_witness :
    pushNextOnly [QOp.push (1:Nat), QOp.next, QOp.next, QOp.push 2] ∧
    (runOps [QOp.push (1:Nat), QOp.next, QOp.next, QOp.push 2]).2 =
      List.zip (nextIds 0 [QOp.push (1:Nat), QOp.next, QOp.next, QOp.push 2])
        ((pushVals [QOp.push (1:Nat), QOp.next, QOp.next, QOp.push 2]).map NextRes.item) := by
  refine ⟨?_, ?_⟩
  · intro op hop
    fin_cases hop
    · exact Or.inr ⟨1, rfl⟩
    · exact Or.inl rfl
    · exact Or.inl rfl
    · exact Or.inr ⟨2, rfl⟩
  · exact (asyncQueue_fifo_exactly_once Nat _ (by
      intro op hop
      fin_cases hop
      · exact Or.inr ⟨1, rfl⟩
      · exact Or.inl rfl
      · exact Or.inl rfl
      · exact Or.inr ⟨2, rfl⟩)).1

/-- C2 counterexample. The claim states that after `close()` every subsequent
`next()` resolves with end-of-stream even when items pushed before the close are
still buffered. On the code, after push 1 then close, a `next()` call resolves
immediately with item 1, not with the end-of-stream signal: the buffered-item
check precedes the `closed` check. -/
theorem asyncQueue_close_counterexample :
    ((runOps [QOp.push (1:Nat), QOp.close]).1.next 2).2 =
      NextOutcome.immediate (NextRes.item 1) ∧
    NextOutcome.immediate (NextRes.item (1:Nat)) ≠
      (NextOutcome.immediate NextRes.done : NextOutcome Nat) := by
  decide

/-- Drain behaviour of a closed queue: a run of `n` consecutive `next()` calls
(ids `k, k+1, ...`) delivers the buffered items first, in buffer (push) order,
and every call beyond them receives the end-of-stream signal. -/
theorem runOpsFrom_closed_drain (α : Type) (n : Nat) : ∀ (st : AsyncQueue α) (k : Nat),
    st.closed = true →
    (runOpsFrom st k (List.replicate n QOp.next)).2 =
      List.zip (nextIds k (List.replicate n (QOp.next : QOp α)))
        ((st.queue.take n).map NextRes.item ++
          List.replicate (n - st.queue.length) NextRes.done) := by
  induction n with
  | zero =>
    intro st k h
    simp [runOpsFrom, nextIds]
  | succ n ih =>
    intro st k h
    rw [List.replicate_succ]
    cases hq : st.queue with
    | nil =>
      have hnext : st.next k = (st, NextOutcome.immediate NextRes.done) := by
        simp [AsyncQueue.next, hq, h]
      simp only [runOpsFrom, hnext]
      rw [ih st (k+1) h]
      simp [nextIds, hq, List.replicate_succ]
    | cons b qs =>
      have hnext : st.next k =
          ({ st with queue := qs }, NextOutcome.immediate (NextRes.item b)) := by
        simp [AsyncQueue.next, hq]
      simp only [runOpsFrom, hnext]
      rw [ih { st with queue := qs } (k+1) (by simpa using h)]
      simp [nextIds, hq, Nat.succ_sub_succ]

/-- C2 amended: after `close()`, `push` is a no-op (so no item pushed after close
is ever delivered); every `next()` call resolves immediately (never suspends);
it resolves with the end-of-stream signal exactly when the internal buffer is
empty, and otherwise delivers the buffer head; and a run of `n` consecutive
`next()` calls drains the items pushed before the close first, in push order,
before yielding end-of-stream signals. -/
theorem asyncQueue_close_amended (α : Type) (st : AsyncQueue α) (a : α) (k n : Nat)
    (h : st.closed = true) :
    st.push a = (st, []) ∧
    (∃ r, (st.next k).2 = NextOutcome.immediate r) ∧
    ((st.next k).2 = NextOutcome.immediate NextRes.done ↔ st.queue = []) ∧
    (∀ b qs, st.queue = b :: qs →
      st.next k = ({ st with queue := qs }, NextOutcome.immediate (NextRes.item b))) ∧
    (runOpsFrom st k (List.replicate n QOp.next)).2 =
      List.zip (nextIds k (List.replicate n (QOp.next : QOp α)))
        ((st.queue.take n).map NextRes.item ++
          List.replicate (n - st.queue.length) NextRes.done) := by
  refine ⟨by simp [AsyncQueue.push, h], ?_, ?_, ?_, runOpsFrom_closed_drain α n st k h⟩
  · cases hq : st.queue with
    | nil => exact ⟨NextRes.done, by simp [AsyncQueue.next, hq, h]⟩
    | cons b qs => exact ⟨NextRes.item b, by simp [AsyncQueue.next, hq]⟩
  · cases hq : st.queue with
    | nil => simp [AsyncQueue.next, hq, h]
    | cons b qs => simp [AsyncQueue.next, hq]
  · intro b qs hq
    simp [AsyncQueue.next, hq]

/-- Witness for the amended C2 on a closed queue buffering items 5 and 6: three
`next()` calls drain 5 then 6 in order and then receive end-of-stream. -/
theorem asyncQueue_close_amended_witness :
    (AsyncQueue.closed (⟨[5, 6], [], true⟩ : AsyncQueue Nat) = true) ∧
    (AsyncQueue.push (⟨[5, 6], [], true⟩ : AsyncQueue Nat) 9 = (⟨[5, 6], [], true⟩, []) ∧
     (∃ r, (AsyncQueue.next (⟨[5, 6], [], true⟩ : AsyncQueue Nat) 0).2 =
        NextOutcome.immediate r) ∧
     ((AsyncQueue.next (⟨[5, 6], [], true⟩ : AsyncQueue Nat) 0).2 =
        NextOutcome.immediate NextRes.done ↔
          (⟨[5, 6], [], true⟩ : AsyncQueue Nat).queue = []) ∧
     (∀ b qs, (⟨[5, 6], [], true⟩ : AsyncQueue Nat).queue = b :: qs →
        AsyncQueue.next (⟨[5, 6], [], true⟩ : AsyncQueue Nat) 0 =
          (⟨qs, [], true⟩, NextOutcome.immediate (NextRes.item b))) ∧
     (runOpsFrom (⟨[5, 6], [], true⟩ : AsyncQueue Nat) 0
          (List.replicate 3 QOp.next)).2 =
        List.zip (nextIds 0 (List.replicate 3 (QOp.next : QOp Nat)))
          ((([5, 6] : List Nat).take 3).map NextRes.item ++
            List.replicate (3 - ([5, 6] : List Nat).length) NextRes.done)) :=
  ⟨rfl, asyncQueue_close_amended Nat ⟨[5, 6], [], true⟩ 9 0 3 rfl⟩

/-- C10. `clear()` on an open queue discards every buffered item and resolves every
currently-waiting `next()` call with the end-of-stream signal even though `closed`
remains `false`; afterwards `push` still accepts items and a later `next()` call
receives them. -/
theorem asyncQueue_clear_spurious_done (α : Type) (st : AsyncQueue α) (a : α) (k : Nat)
    (h : st.closed = false) :
    st.clear.1.queue = [] ∧
    st.clear.1.closed = false ∧
    st.clear.2 = st.waiting.map (fun w => (w, NextRes.done)) ∧
    ((st.clear.1.push a).1.next k).2 = NextOutcome.immediate (NextRes.item a) := by
  refine ⟨rfl, by simp [AsyncQueue.clear, h], rfl, ?_⟩
  simp [AsyncQueue.clear, AsyncQueue.push, AsyncQueue.next, h]

/-- Witness for C10: an open queue holding item 3 with waiter 7; `clear` resolves
waiter 7 with the terminal signal while `closed` stays false, and a subsequent
push/next pair still delivers. -/
theorem asyncQueue_clear_spurious_done_witness :
    (AsyncQueue.closed (⟨[3], [7], false⟩ : AsyncQueue Nat) = false) ∧
    ((⟨[3], [7], false⟩ : AsyncQueue Nat).clear.1.queue = [] ∧
     (⟨[3], [7], false⟩ : AsyncQueue Nat).clear.1.closed = false ∧
     (⟨[3], [7], false⟩ : AsyncQueue Nat).clear.2 =
       ([7] : List Nat).map (fun w => (w, NextRes.done)) ∧
     (((⟨[3], [7], false⟩ : AsyncQueue Nat).clear.1.push 9).1.next 4).2 =
       NextOutcome.immediate (NextRes.item 9)) :=
  ⟨rfl, asyncQueue_clear_spurious_done Nat ⟨[3], [7], false⟩ 9 4 rfl⟩

theorem scanAux_cons (fuel : Nat) (acc : List Char) (c : Char) (rs : List Char) :
    scanAux (fuel + 1) acc (c :: rs) =
      if isEnder c then
        if 10 ≤ (trimList (acc ++ (c :: rs).takeWhile isEnder)).length then
          (trimList (acc ++ (c :: rs).takeWhile isEnder) ::
             (scanAux fuel [] ((c :: rs).dropWhile isEnder)).1,
           (scanAux fuel [] ((c :: rs).dropWhile isEnder)).2)
        else scanAux fuel (acc ++ (c :: rs).takeWhile isEnder) ((c :: rs).dropWhile isEnder)
      else scanAux fuel (acc ++ [c]) rs := rfl

theorem stripWS_append (a b : List Char) : stripWS (a ++ b) = stripWS a ++ stripWS b := by
  simp [stripWS]

theorem stripWS_dropWhile (l : List Char) : stripWS (l.dropWhile isWS) = stripWS l := by
  induction l with
  | nil => rfl
  | cons c t ih =>
    cases hws : isWS c with
    | true => simpa [List.dropWhile_cons, hws, stripWS] using ih
    | false => simp [List.dropWhile_cons, hws, stripWS]

theorem stripWS_reverse (l : List Char) : stripWS l.reverse = (stripWS l).reverse := by
  simp [stripWS, List.filter_reverse]

theorem stripWS_trimList (l : List Char) : stripWS (trimList l) = stripWS l := by
  unfold trimList
  rw [stripWS_reverse, stripWS_dropWhile, stripWS_reverse, List.reverse_reverse,
    stripWS_dropWhile]

/-- The scan loses no non-whitespace character: sentences plus leftover carry
exactly the non-whitespace content of the scanned text. -/
theorem scanAux_lossless (fuel : Nat) : ∀ (acc rest : List Char),
    stripWS ((scanAux fuel acc rest).1.flatten ++ (scanAux fuel acc rest).2) =
      stripWS (acc ++ rest) := by
  induction fuel with
  | zero => intro acc rest; simp [scanAux]
  | succ fuel ih =>
    intro acc rest
    cases rest with
    | nil => simp [scanAux]
    | cons c rs =>
      by_cases hc : isEnder c = true
      · rw [scanAux_cons, if_pos hc]
        by_cases hlen : 10 ≤ (trimList (acc ++ (c :: rs).takeWhile isEnder)).length
        · rw [if_pos hlen]
          show stripWS (_ ++ _) = _
          rw [List.flatten_cons, List.append_assoc, stripWS_append, stripWS_trimList,
            ih [] _, List.nil_append, ← stripWS_append, List.append_assoc,
            List.takeWhile_append_dropWhile]
        · rw [if_neg hlen, ih, List.append_assoc, List.takeWhile_append_dropWhile]
      · rw [scanAux_cons, if_neg hc, ih]
        simp

/-- Every sentence accepted by the scan has length at least the minimum (10). -/
theorem scanAux_min_length (fuel : Nat) : ∀ (acc rest : List Char),
    ∀ s ∈ (scanAux fuel acc rest).1, 10 ≤ s.length := by
  induction fuel with
  | zero => intro acc rest s hs; simp [scanAux] at hs
  | succ fuel ih =>
    intro acc rest s hs
    cases rest with
    | nil => simp [scanAux] at hs
    | cons c rs =>
      by_cases hc : isEnder c = true
      · rw [scanAux_cons, if_pos hc] at hs
        by_cases hlen : 10 ≤ (trimList (acc ++ (c :: rs).takeWhile isEnder)).length
        · rw [if_pos hlen] at hs
          rcases List.mem_cons.mp hs with rfl | hs
          · exact hlen
          · exact ih [] _ s hs
        · rw [if_neg hlen] at hs
          exact ih _ _ s hs
      · rw [scanAux_cons, if_neg hc] at hs
        exact ih _ _ s hs

/-- When the scan accepts nothing, the leftover is exactly the scanned text. -/
theorem scanAux_no_accept (fuel : Nat) : ∀ (acc rest : List Char),
    (scanAux fuel acc rest).1 = [] → (scanAux fuel acc rest).2 = acc ++ rest := by
  induction fuel with
  | zero => intro acc rest _; simp [scanAux]
  | succ fuel ih =>
    intro acc rest h1
    cases rest with
    | nil => simp [scanAux]
    | cons c rs =>
      by_cases hc : isEnder c = true
      · rw [scanAux_cons, if_pos hc] at h1 ⊢
        by_cases hlen : 10 ≤ (trimList (acc ++ (c :: rs).takeWhile isEnder)).length
        · rw [if_pos hlen] at h1
          cases h1
        · rw [if_neg hlen] at h1 ⊢
          rw [ih _ _ h1, List.append_assoc, List.takeWhile_append_dropWhile]
      · rw [scanAux_cons, if_neg hc] at h1 ⊢
        rw [ih _ _ h1]
        simp

theorem extractScan_lossless (buffer : List Char) :
    stripWS ((extractScan buffer).1.flatten ++ (extractScan buffer).2) = stripWS buffer := by
  have hbase := scanAux_lossless (buffer.length + 1) [] buffer
  rw [List.nil_append] at hbase
  unfold extractScan
  by_cases h : (scanAux (buffer.length + 1) [] buffer).1.isEmpty = true
  · rw [if_pos h]; exact hbase
  · rw [if_neg h]
    show stripWS (_ ++ _) = _
    rw [stripWS_append, stripWS_trimList, ← stripWS_append]
    exact hbase

theorem extractScan_min (buffer : List Char) :
    ∀ s ∈ (extractScan buffer).1, 10 ≤ s.length := by
  intro s hs
  unfold extractScan at hs
  by_cases h : (scanAux (buffer.length + 1) [] buffer).1.isEmpty = true
  · rw [if_pos h] at hs
    exact scanAux_min_length _ _ _ s hs
  · rw [if_neg h] at hs
    exact scanAux_min_length _ _ _ s hs

theorem extractScan_empty (buffer : List Char) (h : (extractScan buffer).1 = []) :
    extractScan buffer = ([], buffer) := by
  unfold extractScan at h ⊢
  by_cases he : (scanAux (buffer.length + 1) [] buffer).1.isEmpty = true
  · rw [if_pos he] at h ⊢
    have := scanAux_no_accept (buffer.length + 1) [] buffer h
    rw [List.nil_append] at this
    rw [Prod.ext_iff]
    exact ⟨h, this⟩
  · rw [if_neg he] at h
    replace h : (scanAux (buffer.length + 1) [] buffer).1 = [] := h
    rw [h] at he
    exact absurd rfl he

theorem lengthFailsafe_lossless (out : List (List Char)) (buf : List Char) (lf now : Nat) :
    stripWS ((lengthFailsafe out buf lf now).1.flatten ++
        (lengthFailsafe out buf lf now).2.1) =
      stripWS (out.flatten ++ buf) := by
  unfold lengthFailsafe
  split_ifs with h1 h2
  · simp [List.flatten_append, stripWS_append, stripWS_trimList]
  · rfl
  · rfl

theorem lengthFailsafe_min (out : List (List Char)) (buf : List Char) (lf now : Nat)
    (h : ∀ s ∈ out, 10 ≤ s.length) :
    ∀ s ∈ (lengthFailsafe out buf lf now).1, 10 ≤ s.length := by
  intro s hs
  unfold lengthFailsafe at hs
  split_ifs at hs with h1 h2
  · rcases List.mem_append.mp hs with hs | hs
    · exact h s hs
    · rw [List.mem_singleton.mp hs]; exact h2
  · exact h s hs
  · exact h s hs

theorem lengthFailsafe_lf (out : List (List Char)) (buf : List Char) (lf now : Nat) :
    (lengthFailsafe out buf lf now).2.2 = lf ∨ (lengthFailsafe out buf lf now).2.2 = now := by
  unfold lengthFailsafe
  split_ifs <;> simp

theorem lengthFailsafe_empty (out : List (List Char)) (buf : List Char) (lf now : Nat)
    (h : (lengthFailsafe out buf lf now).1 = []) :
    out = [] ∧ lengthFailsafe out buf lf now = ([], buf, lf) := by
  unfold lengthFailsafe at h ⊢
  split_ifs at h ⊢ with h1 h2
  · simp at h
  · replace h : out = [] := h
    exact ⟨h, by rw [h]⟩
  · replace h : out = [] := h
    exact ⟨h, by rw [h]⟩

theorem timeFailsafe_lossless (out : List (List Char)) (buf : List Char) (lf now : Nat) :
    stripWS ((timeFailsafe out buf lf now).1.flatten ++
        (timeFailsafe out buf lf now).2.buffer) =
      stripWS (out.flatten ++ buf) := by
  unfold timeFailsafe
  split_ifs with h1
  · simp [List.flatten_append, stripWS_append, stripWS_trimList]
  · rfl

theorem timeFailsafe_no_fire (out : List (List Char)) (buf : List Char) (lf now : Nat)
    (h : now - lf ≤ 2000) :
    timeFailsafe out buf lf now = (out, ⟨buf, lf⟩) := by
  unfold timeFailsafe
  rw [if_neg]
  rintro ⟨h1, -⟩
  omega

theorem extractSentences_lossless (st : SentenceDetector) (now : Nat) :
    stripWS ((st.extractSentences now).1.flatten ++ (st.extractSentences now).2.buffer) =
      stripWS st.buffer := by
  rcases hscan : extractScan st.buffer with ⟨out, buf⟩
  rcases hlf : lengthFailsafe out buf (if out.isEmpty then st.lastFlush else now) now
    with ⟨out2, buf2, lf2⟩
  have he : st.extractSentences now = timeFailsafe out2 buf2 lf2 now := by
    unfold SentenceDetector.extractSentences
    rw [hscan]
    dsimp only
    rw [hlf]
  rw [he, timeFailsafe_lossless]
  have h2 := lengthFailsafe_lossless out buf (if out.isEmpty then st.lastFlush else now) now
  rw [hlf] at h2
  dsimp at h2
  rw [h2]
  have h1 := extractScan_lossless st.buffer
  rw [hscan] at h1
  exact h1

theorem addChunk_lossless (st : SentenceDetector) (c : List Char) (now : Nat) :
    stripWS ((st.addChunk c now).1.flatten ++ (st.addChunk c now).2.buffer) =
      stripWS (st.buffer ++ c) := by
  unfold SentenceDetector.addChunk
  exact extractSentences_lossless ⟨st.buffer ++ c, st.lastFlush⟩ now

theorem runChunks_lossless (inputs : List (List Char × Nat)) : ∀ (st : SentenceDetector),
    stripWS ((runChunks st inputs).1.flatten ++ (runChunks st inputs).2.buffer) =
      stripWS (st.buffer ++ (inputs.map Prod.fst).flatten) := by
  induction inputs with
  | nil => intro st; simp [runChunks]
  | cons p rest ih =>
    intro st
    rcases p with ⟨c, now⟩
    show stripWS (((st.addChunk c now).1 ++ (runChunks (st.addChunk c now).2 rest).1).flatten
        ++ (runChunks (st.addChunk c now).2 rest).2.buffer) = _
    calc
      stripWS (((st.addChunk c now).1 ++ (runChunks (st.addChunk c now).2 rest).1).flatten
          ++ (runChunks (st.addChunk c now).2 rest).2.buffer)
        = stripWS (st.addChunk c now).1.flatten ++
            stripWS ((runChunks (st.addChunk c now).2 rest).1.flatten ++
              (runChunks (st.addChunk c now).2 rest).2.buffer) := by
          simp [List.flatten_append, stripWS_append, List.append_assoc]
      _ = stripWS (st.addChunk c now).1.flatten ++
            stripWS ((st.addChunk c now).2.buffer ++ (rest.map Prod.fst).flatten) := by
          rw [ih]
      _ = stripWS ((st.addChunk c now).1.flatten ++ (st.addChunk c now).2.buffer) ++
            stripWS ((rest.map Prod.fst).flatten) := by
          simp [stripWS_append, List.append_assoc]
      _ = stripWS (st.buffer ++ c) ++ stripWS ((rest.map Prod.fst).flatten) := by
          rw [addChunk_lossless]
      _ = stripWS (st.buffer ++ ((((c, now) :: rest).map Prod.fst).flatten)) := by
          simp [stripWS_append, List.append_assoc]

/-- C6 amended: segmentation is lossless up to deletion of whitespace. For any
sequence of timed chunks, erasing whitespace from the concatenation of every
sentence yielded by `addChunk` plus the final `getRemainder()` gives the same
text as erasing whitespace from the concatenation of the chunks. (The deleted
whitespace is not confined to sentence boundaries: the post-flush buffer trim
can delete a whitespace run that is interior to a later sentence, see the
counterexample.) -/
theorem sentenceSegmentation_lossless_modulo_ws (inputs : List (List Char × Nat)) (t0 : Nat) :
    stripWS ((runChunks (SentenceDetector.mk0 t0) inputs).1.flatten ++
        ((runChunks (SentenceDetector.mk0 t0) inputs).2.getRemainder).1) =
      stripWS ((inputs.map Prod.fst).flatten) := by
  have h := runChunks_lossless inputs (SentenceDetector.mk0 t0)
  unfold SentenceDetector.getRemainder
  rw [stripWS_append, stripWS_trimList, ← stripWS_append, h]
  simp [SentenceDetector.mk0]

theorem boundaryWS_infix {ps : List (List Char)} {S : List Char} (h : BoundaryWS ps S) :
    ∀ p ∈ ps, ∃ u v, S = u ++ (p ++ v) := by
  induction h with
  | nil w hw => intro p hp; simp at hp
  | cons w p ps S hw h ih =>
    intro q hq
    rcases List.mem_cons.mp hq with rfl | hq
    · exact ⟨w, S, by simp [List.append_assoc]⟩
    · rcases ih q hq with ⟨u, v, huv⟩
      exact ⟨w ++ p ++ u, v, by simp [huv, List.append_assoc]⟩

theorem isPrefixList_append (p v : List Char) : isPrefixList p (p ++ v) = true := by
  induction p with
  | nil => rfl
  | cons a as ih => simp [isPrefixList, ih]

theorem containsSeg_of_split : ∀ (u p v hay : List Char),
    hay = u ++ (p ++ v) → containsSeg hay p = true := by
  intro u
  induction u with
  | nil =>
    intro p v hay h
    subst h
    rw [List.nil_append]
    cases hpv : p ++ v with
    | nil =>
      rcases List.append_eq_nil.mp hpv with ⟨rfl, -⟩
      rfl
    | cons c t =>
      rw [containsSeg, ← hpv, isPrefixList_append]
      rfl
  | cons a u2 ih =>
    intro p v hay h
    subst h
    rw [List.cons_append, containsSeg, ih p v _ rfl, Bool.or_true]

/-- C6 counterexample. Feeding the chunks "This is a test. Hello " and
"world today okay." yields the sentences "This is a test." and
"Helloworld today okay." (and an empty remainder): the post-flush buffer trim
deleted the space separating "Hello" from "world", which lies in the middle of
the second sentence, not at a sentence boundary. Hence the claimed relation -
concatenation of the yielded pieces equals the input differing only by
whitespace at piece boundaries - fails at this input: the second piece is not
even a contiguous segment of the input. -/
theorem sentenceSegmentation_lossless_counterexample :
    ¬ BoundaryWS
        ((runChunks (SentenceDetector.mk0 0) [(chunkA, 0), (chunkB, 0)]).1 ++
          [((runChunks (SentenceDetector.mk0 0) [(chunkA, 0), (chunkB, 0)]).2.getRemainder).1])
        (chunkA ++ chunkB) := by
  intro h
  have hmem : gluedSentence ∈
      (runChunks (SentenceDetector.mk0 0) [(chunkA, 0), (chunkB, 0)]).1 ++
        [((runChunks (SentenceDetector.mk0 0) [(chunkA, 0), (chunkB, 0)]).2.getRemainder).1] := by
    decide
  rcases boundaryWS_infix h gluedSentence hmem with ⟨u, v, huv⟩
  have hseg : containsSeg (chunkA ++ chunkB) gluedSentence = true :=
    containsSeg_of_split u gluedSentence v _ huv
  have hnot : containsSeg (chunkA ++ chunkB) gluedSentence = false := by decide
  rw [hseg] at hnot
  cases hnot

/-- C7. Minimum-length deferral: provided the time failsafe is not due (no more
than 2000 ms since the last flush - the claim's failsafe exception), every
sentence returned by `addChunk` has length at least the minimum (10) - sentences
are returned in trimmed form, so a punctuation-terminated candidate whose
trimmed length is below the minimum is never returned standalone - and when no
sentence is returned at all, the accepted boundary has not advanced: the new
buffer is exactly the old buffer followed by the chunk, the short candidates
staying merged with the following text, and `lastFlush` is unchanged. -/
theorem minLength_deferral (st : SentenceDetector) (c : List Char) (now : Nat)
    (h : now - st.lastFlush ≤ 2000) :
    (∀ s ∈ (st.addChunk c now).1, 10 ≤ s.length) ∧
    ((st.addChunk c now).1 = [] →
      (st.addChunk c now).2.buffer = st.buffer ++ c ∧
      (st.addChunk c now).2.lastFlush = st.lastFlush) := by
  unfold SentenceDetector.addChunk
  rcases hscan : extractScan (st.buffer ++ c) with ⟨out, buf⟩
  rcases hlf : lengthFailsafe out buf (if out.isEmpty then st.lastFlush else now) now
    with ⟨out2, buf2, lf2⟩
  have he : SentenceDetector.extractSentences ⟨st.buffer ++ c, st.lastFlush⟩ now =
      timeFailsafe out2 buf2 lf2 now := by
    unfold SentenceDetector.extractSentences
    rw [hscan]
    dsimp only
    rw [hlf]
  have hlf2 : now - lf2 ≤ 2000 := by
    have := lengthFailsafe_lf out buf (if out.isEmpty then st.lastFlush else now) now
    rw [hlf] at this
    dsimp at this
    rcases this with h2 | h2
    · rw [h2]
      by_cases hie : out.isEmpty = true
      · rw [if_pos hie]; exact h
      · rw [if_neg hie]; omega
    · rw [h2]; omega
  have hnf := timeFailsafe_no_fire out2 buf2 lf2 now hlf2
  rw [he, hnf]
  constructor
  · intro s hs
    have hmin : ∀ s ∈ out, 10 ≤ s.length := by
      intro s2 hs2
      have := extractScan_min (st.buffer ++ c) s2
      rw [hscan] at this
      exact this hs2
    have := lengthFailsafe_min out buf (if out.isEmpty then st.lastFlush else now) now hmin
    rw [hlf] at this
    exact this s hs
  · intro hout
    have he2 : (lengthFailsafe out buf (if out.isEmpty then st.lastFlush else now) now).1
        = [] := by rw [hlf]; exact hout
    rcases lengthFailsafe_empty _ _ _ _ he2 with ⟨hout0, heq⟩
    rw [hlf] at heq
    have hbuf : buf2 = buf ∧ lf2 = (if out.isEmpty then st.lastFlush else now) := by
      rcases Prod.mk.injEq _ _ _ _ ▸ heq with ⟨-, h2⟩
      exact ⟨congrArg Prod.fst h2, congrArg Prod.snd h2⟩
    have hscan0 := extractScan_empty (st.buffer ++ c) (by rw [hscan, hout0])
    rw [hscan] at hscan0
    have hbufeq : buf = st.buffer ++ c := congrArg Prod.snd hscan0
    rcases hbuf with ⟨hb2, hl2⟩
    subst hout0
    constructor
    · rw [hb2, hbufeq]
    · rw [hl2]
      rfl

/-- Witness for C7: on the chunk "Hi! Yes ok fine." the short candidate "Hi!"
is not emitted standalone; the single returned sentence is the merged
"Hi! Yes ok fine." of length 16. -/
theorem minLength_deferral_witness :
    ((0:Nat) - (SentenceDetector.mk0 0).lastFlush ≤ 2000) ∧
    ((∀ s ∈ ((SentenceDetector.mk0 0).addChunk c7chunk 0).1, 10 ≤ s.length) ∧
     (((SentenceDetector.mk0 0).addChunk c7chunk 0).1 = [] →
       ((SentenceDetector.mk0 0).addChunk c7chunk 0).2.buffer =
         (SentenceDetector.mk0 0).buffer ++ c7chunk ∧
       ((SentenceDetector.mk0 0).addChunk c7chunk 0).2.lastFlush =
         (SentenceDetector.mk0 0).lastFlush)) :=
  ⟨by decide, minLength_deferral (SentenceDetector.mk0 0) c7chunk 0 (by decide)⟩

/-- The total attempt count never exceeds `retries + 1`: with the default budget,
at most 2 retries after the first attempt. -/
theorem sendBookingAux_attempts_le (retries : Nat) : ∀ (env : Nat → HttpResult) (i : Nat),
    (sendBookingAux env i retries).2.1 ≤ retries + 1 := by
  induction retries with
  | zero =>
    intro env i
    rcases henv : env i with n | t
    · simp only [sendBookingAux, henv]
      split_ifs <;> simp
    · simp [sendBookingAux, henv]
  | succ r ih =>
    intro env i
    rcases henv : env i with n | t
    · simp only [sendBookingAux, henv]
      split_ifs
      · have := ih env (i+1)
        simp only []
        omega
      · simp
      · simp
    · have := ih env (i+1)
      simp only [sendBookingAux, henv]
      omega

/-- C4. Webhook retry policy, evaluated on the code of sendBooking. The
transport half of the claim holds: an endpoint that times out on every attempt
is retried exactly twice with a fixed 1000 ms backoff (3 attempts, then
terminal failure), and timeouts on attempts 1 and 2 followed by a 200 yield
success on the third attempt. The 4xx half is contradicted: an endpoint that
answers 404 on every attempt is ALSO retried twice (3 attempts, 2000 ms of
backoff) before the terminal failure, because the 4xx branch throws a plain
`Error` carrying no `response` field, so the retry guard `!error.response`
(commented "Retry on network errors") treats it as a network error. A 5xx
response, by contrast, is not retried. -/
theorem webhook_4xx_retried_code_bug :
    sendBooking (fun _ => HttpResult.status 404) = (SendOutcome.failure, 3, 2000) ∧
    sendBooking (fun _ => HttpResult.netErr true) = (SendOutcome.failure, 3, 2000) ∧
    sendBooking (fun i => if i < 2 then HttpResult.netErr true else HttpResult.status 200) =
      (SendOutcome.success 200, 3, 2000) ∧
    sendBooking (fun _ => HttpResult.status 500) = (SendOutcome.failure, 1, 0) := by
  refine ⟨?_, ?_, ?_, ?_⟩ <;> rfl

/-- C5 counterexample. On a barge-in (AI speaking, state holding the non-empty
`lastProcessedText` "hello there", incoming signal "stop please now"), the
handler aborts the active pipeline AND resets `lastProcessedText` to the empty
string (server.js line 155) - so `lastProcessedText` is cleared on a path other
than normal pipeline completion, and it does not keep its value when the
pipeline is aborted by barge-in. -/
theorem lastProcessedText_abort_counterexample :
    TrigEv.abortPipe ∈ (onTranscript c5state c5signal).2 ∧
    (onTranscript c5state c5signal).1.lastProcessedText = [] ∧
    c5state.lastProcessedText ≠ [] := by
  decide

/-- C5 amended: the pipeline-completion handler clears `lastProcessedText` only
on normal completion and preserves it when the pipeline was aborted (so the
interrupting text recorded by the new trigger is not reprocessed as a
duplicate); the barge-in branch itself, however, resets `lastProcessedText` to
the empty string at the moment it aborts the active pipeline. -/
theorem lastProcessedText_frame_amended (st : TrigState) (sig : Signal)
    (h : bargeInCond st sig = true) :
    (onSettled st false).lastProcessedText = [] ∧
    (onSettled st true).lastProcessedText = st.lastProcessedText ∧
    (onTranscript st sig).1.lastProcessedText = [] := by
  refine ⟨rfl, rfl, ?_⟩
  unfold onTranscript
  rw [if_pos h]

/-- Witness for the amended C5 at the concrete barge-in input. -/
theorem lastProcessedText_frame_amended_witness :
    bargeInCond c5state c5signal = true ∧
    ((onSettled c5state false).lastProcessedText = [] ∧
     (onSettled c5state true).lastProcessedText = c5state.lastProcessedText ∧
     (onTranscript c5state c5signal).1.lastProcessedText = []) :=
  ⟨by decide, lastProcessedText_frame_amended c5state c5signal (by decide)⟩

theorem stepWorker_main (inp : PipeInput) (cfg : PipeConfig) :
    (stepWorker inp cfg).main = cfg.main := by
  rcases hw : cfg.worker with _ | s | _
  · rcases hq : cfg.queue with _ | ⟨s, qs⟩
    · simp only [stepWorker, hw, hq]
      split_ifs <;> rfl
    · simp only [stepWorker, hw, hq]
      split_ifs <;> rfl
  · simp only [stepWorker, hw]
    split_ifs <;> rfl
  · simp only [stepWorker, hw]

theorem stepMain_worker (inp : PipeInput) (cfg : PipeConfig) :
    (stepMain inp cfg).worker = cfg.worker := by
  rcases hm : cfg.main with rest | _ | _ | _ | _ | _
  · rcases rest with _ | ⟨⟨chunk, now⟩, rrest⟩
    · simp only [stepMain, hm]
      split_ifs <;> rfl
    · rcases chunk with s | td <;>
        · simp only [stepMain, hm]
          split_ifs <;> rfl
  · simp only [stepMain, hm]
    rcases htc : cfg.toolCall with _ | td <;> split_ifs <;> rfl
  · simp only [stepMain, hm]
    rcases htc : cfg.toolCall with _ | td <;> split_ifs <;> rfl
  · simp only [stepMain, hm]
    rcases htc : cfg.toolCall with _ | td <;> split_ifs <;> rfl
  · simp only [stepMain, hm]
    split_ifs <;> rfl
  · simp only [stepMain, hm]

theorem workerDoneInv_step (inp : PipeInput) (cfg : PipeConfig) (s : Sched)
    (h : workerDoneInv cfg) : workerDoneInv (step inp cfg s) := by
  cases s with
  | abortStep => intro ht; exact h ht
  | workerStep =>
    intro ht
    have ht2 : (stepWorker inp cfg).main = MainPC.toolWebhook ∨
        (stepWorker inp cfg).main = MainPC.toolConfirmTTS ∨
        (stepWorker inp cfg).main = MainPC.toolErrTTS := ht
    rw [stepWorker_main] at ht2
    have hw := h ht2
    show (stepWorker inp cfg).worker = WorkerPC.doneW
    simp [stepWorker, hw]
  | mainStep =>
    intro ht
    have ht2 : (stepMain inp cfg).main = MainPC.toolWebhook ∨
        (stepMain inp cfg).main = MainPC.toolConfirmTTS ∨
        (stepMain inp cfg).main = MainPC.toolErrTTS := ht
    show (stepMain inp cfg).worker = WorkerPC.doneW
    rw [stepMain_worker]
    rcases hm : cfg.main with rest | _ | _ | _ | _ | _
    · exfalso
      rcases rest with _ | ⟨⟨chunk, now⟩, rrest⟩
      · simp only [stepMain, hm] at ht2
        split_ifs at ht2 <;> simp at ht2
      · rcases chunk with s2 | td <;>
          · simp only [stepMain, hm] at ht2
            split_ifs at ht2 <;> simp at ht2
    · by_cases hwk : cfg.worker = WorkerPC.doneW
      · exact hwk
      · exfalso
        simp only [stepMain, hm, if_neg hwk] at ht2
        simp at ht2
    · exact h (Or.inl hm)
    · exact h (Or.inr (Or.inl hm))
    · exact h (Or.inr (Or.inr hm))
    · exfalso
      simp only [stepMain, hm] at ht2
      simp at ht2

theorem run_workerDoneInv (inp : PipeInput) (scheds : List Sched) :
    ∀ cfg : PipeConfig, workerDoneInv cfg → workerDoneInv (run inp cfg scheds) := by
  induction scheds with
  | nil => intro cfg h; exact h
  | cons s rest ih =>
    intro cfg h
    exact ih (step inp cfg s) (workerDoneInv_step inp cfg s h)

/-- C9. Single in-flight synthesis: along any schedule (any interleaving of the
two tasks and barge-in deliveries) of any pipeline run, the number of
concurrently outstanding synthesis calls never exceeds 1 - the worker drains
the queue strictly sequentially, and the main task's confirmation synthesis can
only start after `await ttsWorkerPromise`, i.e. after the worker has
terminated. -/
theorem single_inflight_synthesis (inp : PipeInput) (u : List Char) (t0 : Nat)
    (scheds : List Sched) : ttsInFlight (pipelineRun inp u t0 scheds) ≤ 1 := by
  have hinit : workerDoneInv (initConfig u inp.chunks t0) := by
    intro ht
    rcases ht with ht | ht | ht <;> simp [initConfig] at ht
  have hinv : workerDoneInv (pipelineRun inp u t0 scheds) :=
    run_workerDoneInv inp scheds _ hinit
  rcases hm : (pipelineRun inp u t0 scheds).main with r | _ | _ | _ | _ | _ <;>
    rcases hw : (pipelineRun inp u t0 scheds).worker with _ | s | _ <;>
      simp only [ttsInFlight, hm, hw] <;> try omega
  · have := hinv (Or.inr (Or.inl hm))
    rw [hw] at this
    cases this
  · have := hinv (Or.inr (Or.inr hm))
    rw [hw] at this
    cases this

/-- C1 counterexample. A pipeline whose LLM stream resolves a tool call checks
the abort flag only once (server.js line 428) before executing the side effect;
the barge-in here arrives while the pipeline is suspended on the webhook await.
The run ends aborted, yet an `audio-response` event was emitted with the abort
flag already set (the confirmation audio, line 469) and ConversationTurns were
committed with the flag already set (the tool-result turn, line 453, among
others) - so, as stated, once the cancellation flag is set it is NOT true that
no further audio-response is emitted and no ConversationTurn is committed. -/
theorem abort_integrity_counterexample :
    c1run.aborted = true ∧
    (Ev.audioResponse, true) ∈ c1run.events ∧
    (Turn.mk Role.toolResult toolResultContent, true) ∈ c1run.history ∧
    Role.toolResult ≠ Role.user := by
  decide

theorem abortCleanInv_step (inp : PipeInput) (cfg : PipeConfig) (s : Sched)
    (h : abortCleanInv cfg) : abortCleanInv (step inp cfg s) := by
  obtain ⟨hev, hhi, htc, hstr, hweb1, hweb2, hweb3⟩ := h
  cases s with
  | abortStep => exact ⟨hev, hhi, htc, hstr, hweb1, hweb2, hweb3⟩
  | workerStep =>
    show abortCleanInv (stepWorker inp cfg)
    rcases hw : cfg.worker with _ | sW | _
    · rcases hq : cfg.queue with _ | ⟨sq, qs⟩
      · simp only [stepWorker, hw, hq]
        split_ifs with hcl
        · exact ⟨hev, hhi, htc, hstr, hweb1, hweb2, hweb3⟩
        · exact ⟨hev, hhi, htc, hstr, hweb1, hweb2, hweb3⟩
      · simp only [stepWorker, hw, hq]
        split_ifs with hab hsq h0
        · exact ⟨hev, hhi, htc, hstr, hweb1, hweb2, hweb3⟩
        · exact ⟨hev, hhi, htc, hstr, hweb1, hweb2, hweb3⟩
        · refine ⟨?_, hhi, htc, hstr, hweb1, hweb2, hweb3⟩
          intro e he
          rcases List.mem_append.mp he with he | he
          · exact hev e he
          · rw [List.mem_singleton.mp he]
            simpa using hab
        · exact ⟨hev, hhi, htc, hstr, hweb1, hweb2, hweb3⟩
    · simp only [stepWorker, hw]
      split_ifs with hfail hab
      · exact ⟨hev, hhi, htc, hstr, hweb1, hweb2, hweb3⟩
      · exact ⟨hev, hhi, htc, hstr, hweb1, hweb2, hweb3⟩
      · refine ⟨?_, hhi, htc, hstr, hweb1, hweb2, hweb3⟩
        intro e he
        rcases List.mem_append.mp he with he | he
        · exact hev e he
        · rw [List.mem_singleton.mp he]
          simpa using hab
    · simp only [stepWorker, hw]
      exact ⟨hev, hhi, htc, hstr, hweb1, hweb2, hweb3⟩
  | mainStep =>
    show abortCleanInv (stepMain inp cfg)
    rcases hm : cfg.main with rest | _ | _ | _ | _ | _
    · rcases rest with _ | ⟨⟨chunk, now⟩, rrest⟩
      · simp only [stepMain, hm]
        split_ifs with hgr
        · refine ⟨?_, hhi, htc, ?_, by simp, by simp, by simp⟩
          · intro e he
            rcases List.mem_append.mp he with he | he
            · exact hev e he
            · rw [List.mem_singleton.mp he]
              exact hgr.1
          · intro r hr
            replace hr : MainPC.waitWorker = MainPC.streaming r := hr
            cases hr
        · refine ⟨hev, hhi, htc, ?_, by simp, by simp, by simp⟩
          intro r hr
          replace hr : MainPC.waitWorker = MainPC.streaming r := hr
          cases hr
      · have hnt : ∀ p ∈ (chunk, now) :: rrest, isToolChunk p.1 = false := hstr _ hm
        rcases chunk with sC | td
        · simp only [stepMain, hm]
          split_ifs with hab
          · refine ⟨hev, hhi, htc, ?_, by simp, by simp, by simp⟩
            intro r hr
            replace hr : MainPC.waitWorker = MainPC.streaming r := hr
            cases hr
          · refine ⟨?_, hhi, htc, ?_, by simp, by simp, by simp⟩
            · intro e he
              rcases List.mem_append.mp he with he | he
              · exact hev e he
              · rcases List.mem_map.mp he with ⟨t, ht, rfl⟩
                simpa using hab
            · intro r hr
              replace hr : MainPC.streaming rrest = MainPC.streaming r := hr
              injection hr with h2
              subst h2
              exact fun p hp => hnt p (List.mem_cons_of_mem _ hp)
        · exfalso
          have := hnt (LLMChunk.tool td, now) (List.mem_cons_self _ _)
          simp [isToolChunk] at this
    · simp only [stepMain, hm, htc]
      split_ifs with hwk hab
      · refine ⟨hev, hhi, rfl, ?_, by simp, by simp, by simp⟩
        intro r hr
        replace hr : MainPC.doneM = MainPC.streaming r := hr
        cases hr
      · have habf : cfg.aborted = false := by simpa using hab
        refine ⟨?_, ?_, rfl, ?_, by simp, by simp, by simp⟩
        · intro e he
          rcases List.mem_append.mp he with he | he
          · exact hev e he
          · rcases List.mem_cons.mp he with rfl | he2
            · exact habf
            · rw [List.mem_singleton.mp he2]
              exact habf
        · intro t ht2
          rcases List.mem_append.mp ht2 with ht2 | ht2
          · exact hhi t ht2
          · rw [List.mem_singleton.mp ht2]
            exact habf
        · intro r hr
          replace hr : MainPC.doneM = MainPC.streaming r := hr
          cases hr
      · exact ⟨hev, hhi, htc, hstr, hweb1, hweb2, hweb3⟩
    · exact absurd hm hweb1
    · exact absurd hm hweb2
    · exact absurd hm hweb3
    · simp only [stepMain, hm]
      exact ⟨hev, hhi, htc, hstr, hweb1, hweb2, hweb3⟩

theorem run_abortCleanInv (inp : PipeInput) (scheds : List Sched) :
    ∀ cfg : PipeConfig, abortCleanInv cfg → abortCleanInv (run inp cfg scheds) := by
  induction scheds with
  | nil => intro cfg h; exact h
  | cons s rest ih =>
    intro cfg h
    exact ih (step inp cfg s) (abortCleanInv_step inp cfg s h)

/-- C1 amended: abort integrity holds for every pipeline whose LLM stream
contains no tool-call marker: along any schedule, every emitted event
(`audio-response` events included) and every committed ConversationTurn carries
an unset abort flag - that is, once the cancellation flag is set, no further
audio-response event is emitted and no ConversationTurn is committed. When a
tool call is resolved, the flag is checked only once before the side effect,
and the counterexample shows the claim fails there. -/
theorem abort_integrity_no_tool_amended (inp : PipeInput) (u : List Char) (t0 : Nat)
    (scheds : List Sched) (h : ∀ p ∈ inp.chunks, isToolChunk p.1 = false) :
    (∀ e ∈ (pipelineRun inp u t0 scheds).events, e.2 = false) ∧
    (∀ t ∈ (pipelineRun inp u t0 scheds).history, t.2 = false) := by
  have hinit : abortCleanInv (initConfig u inp.chunks t0) := by
    refine ⟨?_, ?_, rfl, ?_, by simp [initConfig], by simp [initConfig],
      by simp [initConfig]⟩
    · intro e he
      rcases List.mem_singleton.mp he with rfl
      rfl
    · intro t ht
      rcases List.mem_singleton.mp ht with rfl
      rfl
    · intro r hr
      replace hr : MainPC.streaming inp.chunks = MainPC.streaming r := hr
      injection hr with h2
      subst h2
      exact h
  have hrun := run_abortCleanInv inp scheds _ hinit
  exact ⟨hrun.1, hrun.2.1⟩

/-- Witness for the amended C1 on a concrete tool-free run. -/
theorem abort_integrity_no_tool_amended_witness :
    (∀ p ∈ c1winput.chunks, isToolChunk p.1 = false) ∧
    ((∀ e ∈ (pipelineRun c1winput ("hi there".toList) 0 c1wscheds).events, e.2 = false) ∧
     (∀ t ∈ (pipelineRun c1winput ("hi there".toList) 0 c1wscheds).history, t.2 = false)) :=
  ⟨by decide, abort_integrity_no_tool_amended c1winput ("hi there".toList) 0 c1wscheds
    (by decide)⟩

/-- C8 counterexample. A never-aborted pipeline resolves a book-appointment
tool invocation and the webhook fails (throws after its retries are exhausted);
the run completes, the apology utterance is emitted as text and audio and the
conversation continues - but NO tool-result ConversationTurn is appended to the
history (the catch block, server.js lines 477-483, emits the apology and
records nothing), contrary to the claim that the outcome is recorded in both
the success and the failure case. -/
theorem tool_result_turn_missing_counterexample :
    c8run.main = MainPC.doneM ∧
    c8run.aborted = false ∧
    c8run.toolCall = some ("tomorrow 3pm".toList) ∧
    (∀ t ∈ c8run.history, t.1.role ≠ Role.toolResult) ∧
    (Ev.aiResponse apologyMsg, false) ∈ c8run.events ∧
    (Ev.audioResponse, false) ∈ c8run.events := by
  decide

theorem mem_map_fst_append_left {α β : Type} {l : List (α × β)} (l2 : List (α × β)) {x : α}
    (h : x ∈ l.map Prod.fst) : x ∈ (l ++ l2).map Prod.fst := by
  rw [List.map_append]
  exact List.mem_append_left _ h

theorem mem_map_fst_append_right {α β : Type} (l : List (α × β)) {l2 : List (α × β)} {x : α}
    (h : x ∈ l2.map Prod.fst) : x ∈ (l ++ l2).map Prod.fst := by
  rw [List.map_append]
  exact List.mem_append_right _ h

theorem stepWorker_frame (inp : PipeInput) (cfg : PipeConfig) :
    (stepWorker inp cfg).main = cfg.main ∧
    (stepWorker inp cfg).toolCall = cfg.toolCall ∧
    (stepWorker inp cfg).fullResponse = cfg.fullResponse ∧
    (stepWorker inp cfg).aborted = cfg.aborted ∧
    (stepWorker inp cfg).history = cfg.history ∧
    ∃ ex, (stepWorker inp cfg).events = cfg.events ++ ex := by
  rcases hw : cfg.worker with _ | sW | _
  · rcases hq : cfg.queue with _ | ⟨sq, qs⟩
    · simp only [stepWorker, hw, hq]
      split_ifs <;>
        exact ⟨by trivial, by trivial, by trivial, by trivial, by trivial, ⟨[], by simp⟩⟩
    · simp only [stepWorker, hw, hq]
      split_ifs with hab hsq h0
      · exact ⟨by trivial, by trivial, by trivial, by trivial, by trivial, ⟨[], by simp⟩⟩
      · exact ⟨by trivial, by trivial, by trivial, by trivial, by trivial, ⟨[], by simp⟩⟩
      · exact ⟨by trivial, by trivial, by trivial, by trivial, by trivial,
          ⟨[(Ev.statusEv, cfg.aborted)], by simp⟩⟩
      · exact ⟨by trivial, by trivial, by trivial, by trivial, by trivial, ⟨[], by simp⟩⟩
  · simp only [stepWorker, hw]
    split_ifs
    · exact ⟨by trivial, by trivial, by trivial, by trivial, by trivial, ⟨[], by simp⟩⟩
    · exact ⟨by trivial, by trivial, by trivial, by trivial, by trivial, ⟨[], by simp⟩⟩
    · exact ⟨by trivial, by trivial, by trivial, by trivial, by trivial,
        ⟨[(Ev.audioResponse, cfg.aborted)], by simp⟩⟩
  · simp only [stepWorker, hw]
    exact ⟨by trivial, by trivial, by trivial, by trivial, by trivial, ⟨[], by simp⟩⟩

theorem c8Inv_extend (inp : PipeInput) (cfg cfg2 : PipeConfig)
    (hmain : cfg2.main = cfg.main) (htc : cfg2.toolCall = cfg.toolCall)
    (hfr : cfg2.fullResponse = cfg.fullResponse) (hab : cfg2.aborted = cfg.aborted)
    (hhist : cfg2.history = cfg.history)
    (hev : ∃ ex, cfg2.events = cfg.events ++ ex)
    (h : c8Inv inp cfg) : c8Inv inp cfg2 := by
  obtain ⟨h1, h2, h3, h4⟩ := h
  obtain ⟨ex, hex⟩ := hev
  refine ⟨?_, ?_, ?_, ?_⟩
  · intro hok t ht
    rw [hhist] at ht
    exact h1 hok t ht
  · intro hb
    rw [hmain] at hb
    obtain ⟨htd, hok, ha, hb2⟩ := h2 hb
    exact ⟨by rw [htc]; exact htd, hok, by rw [hhist, hfr]; exact ha,
           by rw [hhist]; exact hb2⟩
  · intro hb
    rw [hmain] at hb
    obtain ⟨hfalse, htrue⟩ := h3 hb
    refine ⟨?_, ?_⟩
    · intro hok
      rw [hex, List.map_append]
      exact List.mem_append_left _ (hfalse hok)
    · intro hok
      obtain ⟨hcf, ha, hb2⟩ := htrue hok
      exact ⟨hcf, by rw [hhist, hfr]; exact ha, by rw [hhist]; exact hb2⟩
  · intro hd hab2 td htd2
    rw [hmain] at hd
    rw [hab] at hab2
    rw [htc] at htd2
    obtain ⟨hfail, hsucc⟩ := h4 hd hab2 td htd2
    refine ⟨?_, ?_⟩
    · intro hok
      obtain ⟨ha, hb2⟩ := hfail hok
      refine ⟨by rw [hex, List.map_append]; exact List.mem_append_left _ ha, ?_⟩
      intro he2
      rw [hex, List.map_append]
      exact List.mem_append_left _ (hb2 he2)
    · intro hok
      obtain ⟨ha, hb2, hc⟩ := hsucc hok
      refine ⟨by rw [hhist, hfr]; exact ha, by rw [hhist]; exact hb2, ?_⟩
      intro hcf
      obtain ⟨hc1, hc2⟩ := hc hcf
      exact ⟨by rw [hhist]; exact hc1,
             by rw [hex, List.map_append]; exact List.mem_append_left _ hc2⟩

theorem c8Inv_step (inp : PipeInput) (cfg : PipeConfig) (s : Sched)
    (h : c8Inv inp cfg) : c8Inv inp (step inp cfg s) := by
  obtain ⟨h1, h2, h3, h4⟩ := h
  cases s with
  | abortStep =>
    refine ⟨h1, h2, h3, ?_⟩
    intro hd habt td htd
    replace habt : true = false := habt
    exact Bool.noConfusion habt
  | workerStep =>
    obtain ⟨f1, f2, f3, f4, f5, f6⟩ := stepWorker_frame inp cfg
    exact c8Inv_extend inp cfg _ f1 f2 f3 f4 f5 f6 ⟨h1, h2, h3, h4⟩
  | mainStep =>
    show c8Inv inp (stepMain inp cfg)
    rcases hm : cfg.main with rest | _ | _ | _ | _ | _
    · rcases rest with _ | ⟨⟨chunk, now⟩, rrest⟩
      · simp only [stepMain, hm]
        split_ifs with hgr
        · refine ⟨fun hok t ht => h1 hok t ht, ?_, ?_, ?_⟩
          · intro hb
            replace hb : MainPC.waitWorker = MainPC.toolConfirmTTS := hb
            cases hb
          · intro hb
            replace hb : MainPC.waitWorker = MainPC.toolErrTTS := hb
            cases hb
          · intro hd habt td htd
            replace hd : MainPC.waitWorker = MainPC.doneM := hd
            cases hd
        · refine ⟨fun hok t ht => h1 hok t ht, ?_, ?_, ?_⟩
          · intro hb
            replace hb : MainPC.waitWorker = MainPC.toolConfirmTTS := hb
            cases hb
          · intro hb
            replace hb : MainPC.waitWorker = MainPC.toolErrTTS := hb
            cases hb
          · intro hd habt td htd
            replace hd : MainPC.waitWorker = MainPC.doneM := hd
            cases hd
      · rcases chunk with sC | td0
        · simp only [stepMain, hm]
          split_ifs with hab
          · refine ⟨fun hok t ht => h1 hok t ht, ?_, ?_, ?_⟩
            · intro hb
              replace hb : MainPC.waitWorker = MainPC.toolConfirmTTS := hb
              cases hb
            · intro hb
              replace hb : MainPC.waitWorker = MainPC.toolErrTTS := hb
              cases hb
            · intro hd habt td htd
              replace hd : MainPC.waitWorker = MainPC.doneM := hd
              cases hd
          · refine ⟨fun hok t ht => h1 hok t ht, ?_, ?_, ?_⟩
            · intro hb
              replace hb : MainPC.streaming rrest = MainPC.toolConfirmTTS := hb
              cases hb
            · intro hb
              replace hb : MainPC.streaming rrest = MainPC.toolErrTTS := hb
              cases hb
            · intro hd habt td htd
              replace hd : MainPC.streaming rrest = MainPC.doneM := hd
              cases hd
        · simp only [stepMain, hm]
          split_ifs with hab
          · refine ⟨fun hok t ht => h1 hok t ht, ?_, ?_, ?_⟩
            · intro hb
              replace hb : MainPC.waitWorker = MainPC.toolConfirmTTS := hb
              cases hb
            · intro hb
              replace hb : MainPC.waitWorker = MainPC.toolErrTTS := hb
              cases hb
            · intro hd habt td htd
              replace hd : MainPC.waitWorker = MainPC.doneM := hd
              cases hd
          · refine ⟨fun hok t ht => h1 hok t ht, ?_, ?_, ?_⟩
            · intro hb
              replace hb : MainPC.streaming rrest = MainPC.toolConfirmTTS := hb
              cases hb
            · intro hb
              replace hb : MainPC.streaming rrest = MainPC.toolErrTTS := hb
              cases hb
            · intro hd habt td htd
              replace hd : MainPC.streaming rrest = MainPC.doneM := hd
              cases hd
    · rcases htc2 : cfg.toolCall with _ | td0
      · simp only [stepMain, hm, htc2]
        split_ifs with hwk hab
        · refine ⟨fun hok t ht => h1 hok t ht, ?_, ?_, ?_⟩
          · intro hb
            replace hb : MainPC.doneM = MainPC.toolConfirmTTS := hb
            cases hb
          · intro hb
            replace hb : MainPC.doneM = MainPC.toolErrTTS := hb
            cases hb
          · intro hd habt td htd
            replace htd : (none : Option (List Char)) = some td := htd
            cases htd
        · refine ⟨?_, ?_, ?_, ?_⟩
          · intro hok t ht
            rcases List.mem_append.mp ht with ht | ht
            · exact h1 hok t ht
            · rw [List.mem_singleton.mp ht]
              simp
          · intro hb
            replace hb : MainPC.doneM = MainPC.toolConfirmTTS := hb
            cases hb
          · intro hb
            replace hb : MainPC.doneM = MainPC.toolErrTTS := hb
            cases hb
          · intro hd habt td htd
            replace htd : (none : Option (List Char)) = some td := htd
            cases htd
        · exact ⟨h1, h2, h3, h4⟩
      · simp only [stepMain, hm, htc2]
        split_ifs with hwk hab
        · refine ⟨fun hok t ht => h1 hok t ht, ?_, ?_, ?_⟩
          · intro hb
            replace hb : MainPC.doneM = MainPC.toolConfirmTTS := hb
            cases hb
          · intro hb
            replace hb : MainPC.doneM = MainPC.toolErrTTS := hb
            cases hb
          · intro hd habt td htd
            replace habt : cfg.aborted = false := habt
            rw [hab] at habt
            cases habt
        · refine ⟨fun hok t ht => h1 hok t ht, ?_, ?_, ?_⟩
          · intro hb
            replace hb : MainPC.toolWebhook = MainPC.toolConfirmTTS := hb
            cases hb
          · intro hb
            replace hb : MainPC.toolWebhook = MainPC.toolErrTTS := hb
            cases hb
          · intro hd habt td htd
            replace hd : MainPC.toolWebhook = MainPC.doneM := hd
            cases hd
        · exact ⟨h1, h2, h3, h4⟩
    · rcases htc2 : cfg.toolCall with _ | td0
      · simp only [stepMain, hm, htc2]
        refine ⟨fun hok t ht => h1 hok t ht, ?_, ?_, ?_⟩
        · intro hb
          replace hb : MainPC.doneM = MainPC.toolConfirmTTS := hb
          cases hb
        · intro hb
          replace hb : MainPC.doneM = MainPC.toolErrTTS := hb
          cases hb
        · intro hd habt td htd
          replace htd : (none : Option (List Char)) = some td := htd
          cases htd
      · simp only [stepMain, hm, htc2]
        split_ifs with hok
        · refine ⟨?_, ?_, ?_, ?_⟩
          · intro hfalse t ht
            rw [hok] at hfalse
            cases hfalse
          · intro _
            exact ⟨⟨td0, rfl⟩, hok, mem_map_fst_append_right _ (by simp),
                   mem_map_fst_append_right _ (by simp)⟩
          · intro hb
            replace hb : MainPC.toolConfirmTTS = MainPC.toolErrTTS := hb
            cases hb
          · intro hd habt td htd
            replace hd : MainPC.toolConfirmTTS = MainPC.doneM := hd
            cases hd
        · have hokf : inp.webhookOk = false := by simpa using hok
          refine ⟨?_, ?_, ?_, ?_⟩
          · intro _ t ht
            exact h1 hokf t ht
          · intro hb
            replace hb : MainPC.toolErrTTS = MainPC.toolConfirmTTS := hb
            cases hb
          · intro _
            refine ⟨?_, ?_⟩
            · intro _
              exact mem_map_fst_append_right _ (by simp)
            · intro htrue
              rw [htrue] at hokf
              cases hokf
          · intro hd habt td htd
            replace hd : MainPC.toolErrTTS = MainPC.doneM := hd
            cases hd
    · obtain ⟨⟨td1, htd1⟩, hokt, hatc, htr⟩ := h2 hm
      rcases htc2 : cfg.toolCall with _ | td0
      · rw [htc2] at htd1
        cases htd1
      · have htd10 : td1 = td0 := by
          rw [htc2] at htd1
          injection htd1 with h0
          exact h0.symm
        simp only [stepMain, hm, htc2]
        split_ifs with hcok
        · refine ⟨?_, ?_, ?_, ?_⟩
          · intro hfalse t ht
            rw [hokt] at hfalse
            cases hfalse
          · intro hb
            replace hb : MainPC.doneM = MainPC.toolConfirmTTS := hb
            cases hb
          · intro hb
            replace hb : MainPC.doneM = MainPC.toolErrTTS := hb
            cases hb
          · intro hd habt td htd
            replace htd : some td0 = some td := htd
            injection htd with htd
            subst htd
            refine ⟨?_, ?_⟩
            · intro hfalse
              rw [hokt] at hfalse
              cases hfalse
            · intro _
              refine ⟨mem_map_fst_append_left _ hatc, mem_map_fst_append_left _ htr, ?_⟩
              intro _
              exact ⟨mem_map_fst_append_right _ (by simp),
                     mem_map_fst_append_right _ (by simp)⟩
        · have hcokf : inp.confirmTTSOk = false := by simpa using hcok
          refine ⟨?_, ?_, ?_, ?_⟩
          · intro hfalse t ht
            rw [hokt] at hfalse
            cases hfalse
          · intro hb
            replace hb : MainPC.toolErrTTS = MainPC.toolConfirmTTS := hb
            cases hb
          · intro _
            refine ⟨?_, ?_⟩
            · intro hfalse
              rw [hfalse] at hokt
              cases hokt
            · intro _
              exact ⟨hcokf, hatc, htr⟩
          · intro hd habt td htd
            replace hd : MainPC.toolErrTTS = MainPC.doneM := hd
            cases hd
    · obtain ⟨hfailm, htruem⟩ := h3 hm
      simp only [stepMain, hm]
      split_ifs with heok
      · refine ⟨fun hok t ht => h1 hok t ht, ?_, ?_, ?_⟩
        · intro hb
          replace hb : MainPC.doneM = MainPC.toolConfirmTTS := hb
          cases hb
        · intro hb
          replace hb : MainPC.doneM = MainPC.toolErrTTS := hb
          cases hb
        · intro hd habt td htd
          refine ⟨?_, ?_⟩
          · intro hokf
            refine ⟨mem_map_fst_append_left _ (hfailm hokf), ?_⟩
            intro _
            exact mem_map_fst_append_right _ (by simp)
          · intro hokt
            obtain ⟨hcokf, hatc, htr⟩ := htruem hokt
            refine ⟨hatc, htr, ?_⟩
            intro hct
            rw [hct] at hcokf
            cases hcokf
      · have heokf : inp.errTTSOk = false := by simpa using heok
        refine ⟨fun hok t ht => h1 hok t ht, ?_, ?_, ?_⟩
        · intro hb
          replace hb : MainPC.doneM = MainPC.toolConfirmTTS := hb
          cases hb
        · intro hb
          replace hb : MainPC.doneM = MainPC.toolErrTTS := hb
          cases hb
        · intro hd habt td htd
          refine ⟨?_, ?_⟩
          · intro hokf
            refine ⟨mem_map_fst_append_left _ (hfailm hokf), ?_⟩
            intro het
            rw [het] at heokf
            cases heokf
          · intro hokt
            obtain ⟨hcokf, hatc, htr⟩ := htruem hokt
            refine ⟨hatc, htr, ?_⟩
            intro hct
            rw [hct] at hcokf
            cases hcokf
    · simp only [stepMain, hm]
      exact ⟨h1, h2, h3, h4⟩

theorem run_c8Inv (inp : PipeInput) (scheds : List Sched) :
    ∀ cfg : PipeConfig, c8Inv inp cfg → c8Inv inp (run inp cfg scheds) := by
  induction scheds with
  | nil => intro cfg h; exact h
  | cons s rest ih =>
    intro cfg h
    exact ih (step inp cfg s) (c8Inv_step inp cfg s h)

/-- C8 amended: along any schedule of any pipeline run, (i) when the webhook
delivery fails, NO tool-result ConversationTurn is ever appended to the
history - the failure outcome is not recorded - although a run that completes
un-aborted with a resolved tool call does emit the apology utterance as text
(and as audio when the apology synthesis itself succeeds) and the conversation
continues; and (ii) when the webhook delivery succeeds, a completed un-aborted
run with a resolved tool call has appended the assistant turn carrying the
tool call and the tool-result turn (these are committed before the
confirmation synthesis), and - when the confirmation synthesis succeeds - has
also appended the confirmation turn and emitted the confirmation audio (a
failed confirmation synthesis instead routes through the apology path). -/
theorem tool_turn_bookkeeping_amended (inp : PipeInput) (u : List Char) (t0 : Nat)
    (scheds : List Sched) :
    (inp.webhookOk = false →
      ∀ t ∈ (pipelineRun inp u t0 scheds).history, t.1.role ≠ Role.toolResult) ∧
    ((pipelineRun inp u t0 scheds).main = MainPC.doneM →
      (pipelineRun inp u t0 scheds).aborted = false →
      ∀ td, (pipelineRun inp u t0 scheds).toolCall = some td →
      (inp.webhookOk = false →
        Ev.aiResponse apologyMsg ∈ (pipelineRun inp u t0 scheds).events.map Prod.fst ∧
        (inp.errTTSOk = true →
          Ev.audioResponse ∈ (pipelineRun inp u t0 scheds).events.map Prod.fst)) ∧
      (inp.webhookOk = true →
        Turn.mk Role.assistantToolCalls (pipelineRun inp u t0 scheds).fullResponse ∈
          (pipelineRun inp u t0 scheds).history.map Prod.fst ∧
        Turn.mk Role.toolResult toolResultContent ∈
          (pipelineRun inp u t0 scheds).history.map Prod.fst ∧
        (inp.confirmTTSOk = true →
          Turn.mk Role.assistant (confirmMsg td) ∈
            (pipelineRun inp u t0 scheds).history.map Prod.fst ∧
          Ev.audioResponse ∈ (pipelineRun inp u t0 scheds).events.map Prod.fst))) := by
  have hinit : c8Inv inp (initConfig u inp.chunks t0) := by
    refine ⟨?_, ?_, ?_, ?_⟩
    · intro _ t ht
      rcases List.mem_singleton.mp ht with rfl
      simp
    · intro hb
      replace hb : MainPC.streaming inp.chunks = MainPC.toolConfirmTTS := hb
      cases hb
    · intro hb
      replace hb : MainPC.streaming inp.chunks = MainPC.toolErrTTS := hb
      cases hb
    · intro hd habt td htd
      replace hd : MainPC.streaming inp.chunks = MainPC.doneM := hd
      cases hd
  have hrun := run_c8Inv inp scheds _ hinit
  exact ⟨hrun.1, hrun.2.2.2⟩

/-- Witness for the amended C8, instantiated at a successful booking run. -/
theorem tool_turn_bookkeeping_amended_witness :
    (c8winput.webhookOk = false →
      ∀ t ∈ (pipelineRun c8winput ("book it".toList) 0 c8scheds).history,
        t.1.role ≠ Role.toolResult) ∧
    ((pipelineRun c8winput ("book it".toList) 0 c8scheds).main = MainPC.doneM →
      (pipelineRun c8winput ("book it".toList) 0 c8scheds).aborted = false →
      ∀ td, (pipelineRun c8winput ("book it".toList) 0 c8scheds).toolCall = some td →
      (c8winput.webhookOk = false →
        Ev.aiResponse apologyMsg ∈
          (pipelineRun c8winput ("book it".toList) 0 c8scheds).events.map Prod.fst ∧
        (c8winput.errTTSOk = true →
          Ev.audioResponse ∈
            (pipelineRun c8winput ("book it".toList) 0 c8scheds).events.map Prod.fst)) ∧
      (c8winput.webhookOk = true →
        Turn.mk Role.assistantToolCalls
            (pipelineRun c8winput ("book it".toList) 0 c8scheds).fullResponse ∈
          (pipelineRun c8winput ("book it".toList) 0 c8scheds).history.map Prod.fst ∧
        Turn.mk Role.toolResult toolResultContent ∈
          (pipelineRun c8winput ("book it".toList) 0 c8scheds).history.map Prod.fst ∧
        (c8winput.confirmTTSOk = true →
          Turn.mk Role.assistant (confirmMsg td) ∈
            (pipelineRun c8winput ("book it".toList) 0 c8scheds).history.map Prod.fst ∧
          Ev.audioResponse ∈
            (pipelineRun c8winput ("book it".toList) 0 c8scheds).events.map Prod.fst))) :=
  tool_turn_bookkeeping_amended c8winput ("book it".toList) 0 c8scheds

end VoiceAgent
